import Mathlib

/-!
# Verification of the image-optimize server core (backend/src/server.ts)

A shallow embedding of the server's orchestration layer: the result cache
with byte/item eviction (`evictIfNeeded`), the concurrency limiter
(`createLimiter`), the job engine (`processJob` / `compressBuffer` /
`scheduleJob`), the chunked-upload session manager
(`/api/upload/init|chunk|complete`), and the polling endpoints
(`/api/job/:jobId`, `/api/jobs`).

JavaScript `Map` objects are modelled as association lists in insertion
order: `set` on an existing key replaces the value in place (keeping the
key's original position, as JS does), `set` on a fresh key appends, and
iteration order is list order.  JS numbers that arrive from JSON are
modelled as `Int` (`Option Int` where the field may be absent); byte
buffers are `List Nat`.
-/

namespace ImageOptimize

/-! ## JS `Map` model -/

/-- A JS `Map`: association list in insertion order. -/
abbrev JsMap (κ α : Type) := List (κ × α)

namespace JsMap

variable {κ α : Type} [DecidableEq κ]

/-- `Map.prototype.get`. -/
def get : JsMap κ α → κ → Option α
  | [], _ => none
  | (k?, v) :: rest, k => if k? = k then some v else get rest k

/-- `Map.prototype.has`. -/
def has (m : JsMap κ α) (k : κ) : Bool := (get m k).isSome

/-- `Map.prototype.set`: replace in place when the key exists (keeping its
insertion position, as JS does), append otherwise. -/
def set : JsMap κ α → κ → α → JsMap κ α
  | [], k, v => [(k, v)]
  | (k?, v?) :: rest, k, v => if k? = k then (k?, v) :: rest else (k?, v?) :: set rest k v

/-- `Map.prototype.delete`. -/
def del : JsMap κ α → κ → JsMap κ α
  | [], _ => []
  | (k?, v?) :: rest, k => if k? = k then rest else (k?, v?) :: del rest k

/-- The keys, in insertion order (`Map.prototype.keys`). -/
def keys (m : JsMap κ α) : List κ := m.map Prod.fst

end JsMap

/-! ## Result cache (server.ts 447-494)

`RESULT_CACHE` is a `Map<string, CacheEntry>`; admission control is
`evictIfNeeded` (466-487), the TTL sweep is the `setInterval` at 489-494.
Budgets are the source defaults (`MAX_CACHE_BYTES`, `MAX_CACHE_ITEMS`,
`CACHE_TTL_MS`). -/

/-- `CacheEntry` (448-454). `size` is always `buffer.length` at creation. -/
structure CacheEntry where
  buffer : List Nat
  mime : String
  filename : String
  size : Nat
  created : Int
deriving Repr, DecidableEq

abbrev ResultCache := JsMap String CacheEntry

def MAX_CACHE_BYTES : Nat := 300 * 1024 * 1024

def MAX_CACHE_ITEMS : Nat := 500

def CACHE_TTL_MS : Int := 10 * 60 * 1000

/-- `currentCacheBytes` (460-464). -/
def currentCacheBytes (c : ResultCache) : Nat := (c.map (fun p => p.2.size)).sum

/-- The TTL pass inside `evictIfNeeded` (472-476) and the background sweep
(489-494): delete every entry older than the TTL. -/
def ttlSweep (now : Int) (c : ResultCache) : ResultCache :=
  c.filter (fun p => decide (now - p.2.created ≤ CACHE_TTL_MS))

/-- The `while` loop of `evictIfNeeded` (478-485): drop the oldest entry
while the pending admission is over either budget. -/
def evictLoop (extraBytes : Nat) : ResultCache → ResultCache
  | [] => []
  | e :: rest =>
    if currentCacheBytes (e :: rest) + extraBytes > MAX_CACHE_BYTES
        ∨ (e :: rest).length ≥ MAX_CACHE_ITEMS then
      evictLoop extraBytes rest
    else e :: rest

/-- `evictIfNeeded` (466-487): admission control for the result cache.
Returns the admission verdict together with the cache state it leaves
behind (the source mutates `RESULT_CACHE` in place). -/
def evictIfNeeded (now : Int) (extraBytes : Nat) (c : ResultCache) : Bool × ResultCache :=
  if extraBytes > MAX_CACHE_BYTES then (false, c)
  else if currentCacheBytes c + extraBytes ≤ MAX_CACHE_BYTES ∧ c.length < MAX_CACHE_ITEMS then
    (true, c)
  else
    (decide (currentCacheBytes (evictLoop extraBytes (ttlSweep now c)) + extraBytes
       ≤ MAX_CACHE_BYTES),
     evictLoop extraBytes (ttlSweep now c))

/-- Admission followed by insertion, exactly as `processJob` (547-549) and
`compressBuffer` (426-427) do it: `if (!evictIfNeeded(buf.length)) fail;
RESULT_CACHE.set(key, {buffer, mime, filename, size: buf.length, created: now})`.
When admission fails the cache is left as `evictIfNeeded` left it. -/
def cacheInsert (now : Int) (key : String) (buf : List Nat) (mime filename : String)
    (c : ResultCache) : ResultCache :=
  if (evictIfNeeded now buf.length c).1 then
    JsMap.set (evictIfNeeded now buf.length c).2 key ⟨buf, mime, filename, buf.length, now⟩
  else (evictIfNeeded now buf.length c).2

/-- One externally visible mutation of the result cache: an
admission+insertion (from a finished job) or a background TTL sweep. -/
inductive CacheOp
  | insert (now : Int) (key : String) (buf : List Nat) (mime filename : String)
  | sweep (now : Int)

def applyCacheOp (c : ResultCache) : CacheOp → ResultCache
  | .insert now k buf m f => cacheInsert now k buf m f c
  | .sweep now => ttlSweep now c

/-- The cache state after a sequence of operations, starting empty. -/
def runCacheOps (ops : List CacheOp) : ResultCache := ops.foldl applyCacheOp []

/-- Both cache budgets hold. -/
def goodCache (c : ResultCache) : Prop :=
  currentCacheBytes c ≤ MAX_CACHE_BYTES ∧ c.length ≤ MAX_CACHE_ITEMS

/-! ## Concurrency limiter (server.ts 316-341)

`createLimiter(max)` keeps a counter `active` and a FIFO `queue` of not yet
started tasks; `next` (318-325) starts the head of the queue when
`active < max`; `limit(task)` (326-340) pushes the task then calls `next`;
a finishing task decrements `active` and calls `next` (332-335).

The state carries, besides the source's `active` and `queue`, the list of
ids of tasks that have been started and have not yet finished (`running`);
in the source these are the closures whose `task()` promise is pending.
Tasks are identified by `Nat` ids. -/

structure LimState where
  active : Nat
  queue : List Nat
  running : List Nat
deriving Repr, DecidableEq

def limInit : LimState := ⟨0, [], []⟩

/-- `next` (318-325). -/
def limNext (max : Nat) (s : LimState) : LimState :=
  if s.active ≥ max then s
  else
    match s.queue with
    | [] => s
    | t :: rest => ⟨s.active + 1, rest, t :: s.running⟩

/-- An observable limiter event: a caller submits a task (`limit(task)`,
326-340), or a running task settles (the `.finally` at 332-335). -/
inductive LimEvent
  | submit (t : Nat)
  | finish (t : Nat)

def limStep (max : Nat) (s : LimState) : LimEvent → LimState
  | .submit t => limNext max { s with queue := s.queue ++ [t] }
  | .finish t =>
      if t ∈ s.running then
        limNext max ⟨s.active - 1, s.queue, s.running.erase t⟩
      else s

/-- The limiter state after a sequence of events, starting idle. -/
def limRun (max : Nat) (evs : List LimEvent) : LimState :=
  evs.foldl (limStep max) limInit

/-! ## The asynchronous job path has no limiter (server.ts 562-565, 514-560)

`scheduleJob(job)` is `setImmediate(() => processJob(job))`: the job starts
on the next event-loop turn, and `processJob` invokes the sharp pipelines
(`metadata()` at 518, `resize().toBuffer()` at 530, `encoder.toBuffer()`
at 541) directly — no call into any limiter appears anywhere in
`scheduleJob` or `processJob`.  The event model below reflects that: a
scheduled job may begin a codec invocation with no admission precondition
other than having been scheduled. -/

inductive AsyncPhase
  | scheduled
  | codecBusy
  | settled
deriving Repr, DecidableEq

abbrev AsyncState := JsMap Nat AsyncPhase

inductive AsyncEvent
  /-- `scheduleJob(job)` (562-565). -/
  | schedule (j : Nat)
  /-- the `setImmediate` callback runs `processJob` up to a sharp `await`;
  no gate is consulted (514-541). -/
  | startCodec (j : Nat)
  /-- the awaited sharp promise settles. -/
  | finishCodec (j : Nat)

def asyncStep (s : AsyncState) : AsyncEvent → AsyncState
  | .schedule j => if (JsMap.get s j).isSome then s else s ++ [(j, .scheduled)]
  | .startCodec j =>
      if JsMap.get s j = some .scheduled then JsMap.set s j .codecBusy else s
  | .finishCodec j =>
      if JsMap.get s j = some .codecBusy then JsMap.set s j .settled else s

def asyncRun (evs : List AsyncEvent) : AsyncState := evs.foldl asyncStep []

/-- Number of codec invocations in flight. -/
def concurrentCodec (s : AsyncState) : Nat :=
  (s.filter (fun p => p.2 = AsyncPhase.codecBusy)).length

/-! ## Quality parsing (server.ts 568-569, 717, 820)

JS quality parameters are modelled as `Option Int`: `none` stands for a
value whose `Number(...)` conversion is `NaN` (absent parameter or
non-numeric text), `some v` for a finite numeric value. -/

/-- `Math.min(100, Math.max(1, x))`. -/
def clampQuality (x : Int) : Int := min 100 (max 1 x)

/-- `/api/compress` (568-569):
`Number.isFinite(qualityRaw) ? Math.min(100, Math.max(1, qualityRaw)) : 70`. -/
def compressQuality (raw : Option Int) : Int :=
  match raw with
  | none => 70
  | some v => clampQuality v

/-- `/api/upload/init` (717): `Math.min(100, Math.max(1, Number(quality) || 70))`
— `0` and `NaN` are falsy, so both fall back to `70` before clamping. -/
def initQuality (raw : Option Int) : Int :=
  clampQuality (match raw with
    | none => 70
    | some v => if v = 0 then 70 else v)

/-- `/api/upload/complete` (820):
`Math.min(100, Math.max(1, Number(quality) || session.quality || 70))`. -/
def completeQuality (raw : Option Int) (sessionQ : Option Int) : Int :=
  let fallback : Int :=
    match sessionQ with
    | none => 70
    | some w => if w = 0 then 70 else w
  clampQuality (match raw with
    | none => fallback
    | some v => if v = 0 then fallback else v)

/-! ## Codec adapter and the job engine (server.ts 399-565)

The sharp library is the external codec; it is modelled as an oracle with
one entry per pipeline shape the server builds.  A result of `none` models
a pipeline that rejects (sharp throwing); for the encode entries, a result
of `some []` together with the timeout race (420, 541) is how a timeout
surfaces (`if (!outBuffer.length) -> timeout`). -/

structure ImgMeta where
  width : Option Nat
  height : Option Nat
deriving Repr, DecidableEq

structure Codec where
  /-- `sharp(buffer).metadata()` (403, 518). -/
  metadata : List Nat → Option ImgMeta
  /-- `sharp(buffer).resize({...}).toBuffer()` (530): the standalone resize
  of `processJob`. -/
  resize : List Nat → Option (List Nat)
  /-- `encoder.toBuffer()` (541): encode at a quality, no resize. -/
  encode : List Nat → Int → Option (List Nat)
  /-- `pipeline.toBuffer()` (420): `compressBuffer`'s fused
  (optional resize) + encode pipeline. -/
  resizeEncode : List Nat → Int → Option (List Nat)

def ALLOWED_MIME : List String := ["image/jpeg", "image/png", "image/webp"]

def HARD_PIXEL_LIMIT : Nat := 80000000

/-- `MAX_PIXELS` default (406, 521). -/
def MAX_PIXELS : Nat := 35000000

/-- JS truthiness of `meta.width` / `meta.height`: defined and nonzero. -/
def truthyNat : Option Nat → Bool
  | none => false
  | some n => n ≠ 0

/-- The resize condition of 409 and 524:
`totalPixels > MAX_PIXELS && meta.width && meta.height`. -/
def needsResize (meta : ImgMeta) : Bool :=
  (meta.width.getD 0) * (meta.height.getD 0) > MAX_PIXELS
    && truthyNat meta.width && truthyNat meta.height

/-- `CompressItemResult` (types/dto) as populated by `compressBuffer`. -/
structure CompressItemResult where
  id : String
  originalName : String
  mime : Option String := none
  originalSize : Option Nat := none
  compressedSize : Option Nat := none
  width : Option Nat := none
  height : Option Nat := none
  downloadUrl : Option String := none
  itemError : Option String := none
deriving Repr, DecidableEq

/-- `compressBuffer` (400-445): the synchronous compression path.  Returns
the item result together with the result cache and the dedup index
(`COMPRESSED_HASH_INDEX`) it leaves behind. -/
def compressBuffer (codec : Codec) (now : Int) (id originalName mime : String)
    (buffer : List Nat) (quality : Int) (originalHash : Option String)
    (cache : ResultCache) (hashIndex : JsMap String String) :
    CompressItemResult × ResultCache × JsMap String String :=
  let fail (e : String) : CompressItemResult × ResultCache × JsMap String String :=
    ({ id := id, originalName := originalName, itemError := some e }, cache, hashIndex)
  if mime ∉ ALLOWED_MIME then fail "unsupported_type"
  else
    match codec.metadata buffer with
    | none => fail "compress_failed"
    | some meta =>
      let totalPixels := (meta.width.getD 0) * (meta.height.getD 0)
      if totalPixels > HARD_PIXEL_LIMIT then fail "dimensions_too_large"
      else
        let scaled := needsResize meta
        match (if scaled then codec.resizeEncode buffer quality
               else codec.encode buffer quality) with
        | none => fail "compress_failed"
        | some outBuffer =>
          if outBuffer.length = 0 then fail "timeout"
          else
            let finalBuffer :=
              if !scaled && outBuffer.length ≥ buffer.length then buffer else outBuffer
            let r := evictIfNeeded now finalBuffer.length cache
            if !r.1 then
              ({ id := id, originalName := originalName, itemError := some "cache_overflow" },
               r.2, hashIndex)
            else
              let cache? := JsMap.set r.2 id
                ⟨finalBuffer, mime, originalName, finalBuffer.length, now⟩
              let index? :=
                match originalHash with
                | some h =>
                    if h ≠ "" then JsMap.set hashIndex (h ++ ":" ++ toString quality) id
                    else hashIndex
                | none => hashIndex
              ({ id := id, originalName := originalName, mime := some mime,
                 originalSize := some buffer.length,
                 compressedSize := some finalBuffer.length,
                 width := meta.width, height := meta.height,
                 downloadUrl := some ("/api/download/" ++ id) },
               cache?, index?)

inductive JobPhase
  | queued | decoding | resizing | encoding | finalizing | done | jobError
deriving Repr, DecidableEq

/-- `ProgressJob` (497-511). -/
structure ProgressJob where
  id : String
  clientId : String
  originalName : String
  mime : String
  buffer : List Nat
  quality : Int
  created : Int
  phase : JobPhase
  progress : ℚ
  resultId : Option String := none
  compressedSize : Option Nat := none
  downloadUrl : Option String := none
  errMsg : Option String := none
deriving Repr, DecidableEq

/-- `processJob` (514-560): the asynchronous job path.  Returns the final
job record and the result cache it leaves behind.  Note that, unlike
`compressBuffer`, it never touches `COMPRESSED_HASH_INDEX` and it stores
the result under `job.clientId` (548). -/
def processJob (codec : Codec) (now : Int) (job : ProgressJob) (cache : ResultCache) :
    ProgressJob × ResultCache :=
  let fail (e : String) (c : ResultCache) : ProgressJob × ResultCache :=
    ({ job with phase := .jobError, errMsg := some e, progress := 1 }, c)
  match codec.metadata job.buffer with
  | none => fail "compress_failed" cache
  | some meta =>
    let totalPixels := (meta.width.getD 0) * (meta.height.getD 0)
    if totalPixels > HARD_PIXEL_LIMIT then fail "dimensions_too_large" cache
    else
      let scaled := needsResize meta
      let workBuffer? : Option (List Nat) :=
        if scaled then codec.resize job.buffer else some job.buffer
      match workBuffer? with
      | none => fail "compress_failed" cache
      | some workBuffer =>
        match codec.encode workBuffer job.quality with
        | none => fail "compress_failed" cache
        | some encoded =>
          if encoded.length = 0 then fail "timeout" cache
          else
            let finalBuffer :=
              if !scaled && encoded.length ≥ job.buffer.length then job.buffer else encoded
            let r := evictIfNeeded now finalBuffer.length cache
            if !r.1 then fail "cache_overflow" r.2
            else
              let resultId := job.clientId
              let cache? := JsMap.set r.2 resultId
                ⟨finalBuffer, job.mime, job.originalName, finalBuffer.length, now⟩
              ({ job with phase := .done, progress := 1, resultId := some resultId,
                          compressedSize := some finalBuffer.length,
                          downloadUrl := some ("/api/download/" ++ resultId) },
               cache?)

/-! ## Upload session manager (server.ts 359-397, 710-844) -/

def CHUNK_MAX_FILE : Int := 800 * 1024 * 1024

def CHUNK_MAX_SESSION_MEMORY : Int := 800 * 1024 * 1024

/-- `UploadSession` (365-378).  Chunk indices are validated nonnegative
integers before storage (784), so chunk keys are `Nat`. -/
structure UploadSession where
  sid : String
  filename : String
  mime : String
  totalSize : Int
  totalChunks : Int
  receivedBytes : Int
  chunks : JsMap Nat (List Nat)
  created : Int
  updated : Int
  quality : Option Int
  hash : Option String
  clientId : Option String
deriving Repr, DecidableEq

/-- The four shared stores of the server. -/
structure ServerState where
  sessions : JsMap String UploadSession
  cache : ResultCache
  hashIndex : JsMap String String
  jobs : JsMap String ProgressJob
deriving Repr, DecidableEq

def emptyState : ServerState := ⟨[], [], [], []⟩

/-- `currentUploadBytes` (383-387). -/
def currentUploadBytes (m : JsMap String UploadSession) : Int :=
  (m.map (fun p => p.2.receivedBytes)).sum

/-- Body of `POST /api/upload/init` (710-774).  Fields are `Option`s:
`none` is an absent JSON field (whose `Number(...)` is `NaN` and which is
falsy). -/
structure InitRequest where
  filename : Option String := none
  size : Option Int := none
  mime : Option String := none
  totalChunks : Option Int := none
  quality : Option Int := none
  hash : Option String := none
  clientId : Option String := none
deriving Repr, DecidableEq

inductive InitResult
  | badRequest
  | unsupportedType
  | fileTooLarge
  /-- `{ instant: true, uploadId, item }` (735). -/
  | instant (uploadId : String) (item : CompressItemResult)
  /-- `{ uploadId, resume: true, receivedBytes, receivedIndices }` (746-751). -/
  | resume (uploadId : String) (receivedBytes : Int) (receivedIndices : List Nat)
  | serverBusy
  /-- `{ uploadId, resume: false, receivedBytes: 0, receivedIndices: [] }` (773). -/
  | fresh (uploadId : String)
deriving Repr, DecidableEq

/-- JS truthiness of an optional string (`!filename`, `if (hash)`): defined
and nonempty. -/
def truthyStr : Option String → Bool
  | none => false
  | some s => s ≠ ""

/-- The tail of `POST /api/upload/init` after the dedup block: the resume
scan (743-754), the memory budget check (756) and fresh-session creation
(757-773). -/
def initContinue (now : Int) (freshId : String) (st : ServerState) (req : InitRequest)
    (q : Int) : InitResult × ServerState :=
  match (if truthyStr req.hash then
          st.sessions.find? (fun p =>
            p.2.hash = req.hash ∧ p.2.filename = req.filename.getD ""
              ∧ p.2.totalSize = req.size.getD 0 ∧ p.2.mime = req.mime.getD "")
        else none) with
  | some p => (.resume p.2.sid p.2.receivedBytes (JsMap.keys p.2.chunks), st)
  | none =>
    if currentUploadBytes st.sessions + req.size.getD 0 > CHUNK_MAX_SESSION_MEMORY then
      (.serverBusy, st)
    else
      (.fresh freshId,
       { st with sessions := (JsMap.set st.sessions freshId
          { sid := freshId, filename := req.filename.getD "", mime := req.mime.getD "",
            totalSize := req.size.getD 0, totalChunks := req.totalChunks.getD 0,
            receivedBytes := 0, chunks := [], created := now, updated := now,
            quality := some q, hash := req.hash,
            clientId := if truthyStr req.clientId then req.clientId else none }) })

/-- `POST /api/upload/init` (710-774).  `freshId` stands for the
`crypto.randomUUID()` result used by this call. -/
def initUpload (now : Int) (freshId : String) (st : ServerState) (req : InitRequest) :
    InitResult × ServerState :=
  if !truthyStr req.filename || req.size.isNone || !truthyStr req.mime
      || req.totalChunks.isNone then
    (.badRequest, st)
  else if req.mime.getD "" ∉ ALLOWED_MIME then (.unsupportedType, st)
  else if req.size.getD 0 > CHUNK_MAX_FILE then (.fileTooLarge, st)
  else
    -- dedup block (719-741): instant hit, or lazy deletion of a stale entry
    if truthyStr req.hash then
      match JsMap.get st.hashIndex
          (req.hash.getD "" ++ ":" ++ toString (initQuality req.quality)) with
      | some cacheId =>
        match JsMap.get st.cache cacheId with
        | some entry =>
            (.instant freshId
              { id := cacheId, originalName := req.filename.getD "", mime := some entry.mime,
                originalSize := some entry.size, compressedSize := some entry.size,
                downloadUrl := some ("/api/download/" ++ cacheId) }, st)
        | none =>
            initContinue now freshId
              { st with hashIndex := (JsMap.del st.hashIndex
                  (req.hash.getD "" ++ ":" ++ toString (initQuality req.quality))) } req
              (initQuality req.quality)
      | none => initContinue now freshId st req (initQuality req.quality)
    else initContinue now freshId st req (initQuality req.quality)

/-- Responses of `POST /api/upload/chunk` (778-800).  The `bad_request` and
`no_chunk` branches (780, 790) are for absent parameters, which this model
always supplies. -/
inductive ChunkResult
  | notFound
  | badIndex
  /-- `{ received, total, done, duplicate? }` (787, 799). -/
  | ok (received : Int) (total : Int) (done : Bool) (duplicate : Bool)
  | sizeMismatch
deriving Repr, DecidableEq

/-- The in-place session mutation of an accepted chunk (792-794):
`session.chunks.set(idx, buf); session.receivedBytes += buf.size;
session.updated = now`. -/
def chunkAccept (now : Int) (s : UploadSession) (idx : Nat) (chunk : List Nat) :
    UploadSession :=
  { s with chunks := JsMap.set s.chunks idx chunk,
           receivedBytes := s.receivedBytes + chunk.length,
           updated := now }

/-- `POST /api/upload/chunk` (778-800). `index` is the parsed `Number` of
the query parameter; `chunk` the uploaded bytes. -/
def putChunk (now : Int) (sessions : JsMap String UploadSession) (uploadId : String)
    (index : Int) (chunk : List Nat) : ChunkResult × JsMap String UploadSession :=
  match JsMap.get sessions uploadId with
  | none => (.notFound, sessions)
  | some s =>
    if index < 0 ∨ index ≥ s.totalChunks then (.badIndex, sessions)
    else
      if (JsMap.get s.chunks index.toNat).isSome then
        (.ok s.receivedBytes s.totalSize (decide ((s.chunks.length : Int) = s.totalChunks)) true,
         sessions)
      else
        if (chunkAccept now s index.toNat chunk).receivedBytes > s.totalSize then
          (.sizeMismatch,
           JsMap.del (JsMap.set sessions uploadId (chunkAccept now s index.toNat chunk)) uploadId)
        else
          (.ok (chunkAccept now s index.toNat chunk).receivedBytes s.totalSize
             (decide (((chunkAccept now s index.toNat chunk).chunks.length : Int)
               = (chunkAccept now s index.toNat chunk).totalChunks)) false,
           JsMap.set sessions uploadId (chunkAccept now s index.toNat chunk))

/-- Reassembly loop of `/api/upload/complete` (811-817): look up the given
indices in order, failing on the first missing one (`missing_chunk`). -/
def collectChunks (chunks : JsMap Nat (List Nat)) : List Nat → Option (List (List Nat))
  | [] => some []
  | i :: rest =>
    match JsMap.get chunks i with
    | none => none
    | some b => (collectChunks chunks rest).map (fun l => b :: l)

/-- Reassembly of `/api/upload/complete` (811-817): chunks `0..n-1` in
ascending index order, concatenated (`Buffer.concat`). -/
def assembleChunks (chunks : JsMap Nat (List Nat)) (n : Nat) : Option (List Nat) :=
  (collectChunks chunks (List.range n)).map List.flatten

inductive CompleteResult
  | notFound
  | incomplete
  | missingChunk
  /-- `{ async: true, jobId, id, quality }` (838). -/
  | asyncStarted (jobId : String) (clientId : String) (quality : Int)
  /-- `{ item, quality }` (842). -/
  | syncResult (item : CompressItemResult) (quality : Int)
deriving Repr, DecidableEq

/-- `POST /api/upload/complete` (802-844).  `freshJobId` stands for the
`crypto.randomUUID()` of 824.  In the `progress === "1"` path the job is
stored and scheduled (836-837); running it (`processJob`) happens on a
later event-loop turn, modelled as a separate call.  The non-progress path
runs `compressBuffer` inline (841). -/
def completeUpload (codec : Codec) (now : Int) (freshJobId : String) (st : ServerState)
    (uploadId : String) (quality : Option Int) (wantProgress : Bool) :
    CompleteResult × ServerState :=
  match JsMap.get st.sessions uploadId with
  | none => (.notFound, st)
  | some s =>
    if ¬((s.chunks.length : Int) = s.totalChunks ∧ s.receivedBytes = s.totalSize) then
      (.incomplete, st)
    else
      match assembleChunks s.chunks s.totalChunks.toNat with
      | none => (.missingChunk, st)
      | some full =>
        let st := { st with sessions := JsMap.del st.sessions uploadId }
        let q := completeQuality quality s.quality
        let clientId := s.clientId.getD uploadId
        if wantProgress then
          let job : ProgressJob :=
            { id := freshJobId, clientId := clientId, originalName := s.filename,
              mime := s.mime, buffer := full, quality := q, created := now,
              phase := .queued, progress := 0 }
          (.asyncStarted freshJobId clientId q,
           { st with jobs := JsMap.set st.jobs freshJobId job })
        else
          let r := compressBuffer codec now clientId s.filename s.mime full q s.hash
            st.cache st.hashIndex
          (.syncResult r.1 q, { st with cache := r.2.1, hashIndex := r.2.2 })

/-! ## Polling endpoints (server.ts 650-678) -/

/-- One element of the `GET /api/jobs` response (672-675); also the body of
the `GET /api/job/:jobId` response (653-661).  A found job is reported with
its full record and no `missing` flag (modelled `missing := false`). -/
structure JobPollRecord where
  jobId : String
  missing : Bool
  clientId : Option String := none
  phase : Option JobPhase := none
  progress : Option ℚ := none
  errMsg : Option String := none
  downloadUrl : Option String := none
  compressedSize : Option Nat := none
deriving Repr, DecidableEq

def foundRecord (id : String) (job : ProgressJob) : JobPollRecord :=
  { jobId := id, missing := false, clientId := some job.clientId,
    phase := some job.phase, progress := some job.progress, errMsg := job.errMsg,
    downloadUrl := job.downloadUrl, compressedSize := job.compressedSize }

/-- One id of the `GET /api/jobs` handler (672-676): an absent id is
`{ jobId, missing: true }`; a present one is reported in full, with no
look at its age. -/
def pollOne (jobs : JsMap String ProgressJob) (id : String) : JobPollRecord :=
  match JsMap.get jobs id with
  | none => { jobId := id, missing := true }
  | some job => foundRecord id job

/-- `GET /api/jobs?ids=...` (669-678). -/
def pollJobs (jobs : JsMap String ProgressJob) (ids : List String) : List JobPollRecord :=
  ids.map (pollOne jobs)

def JOB_GRACE_MS : Int := 2 * 60 * 1000

/-- `GET /api/job/:jobId` (650-666): respond with the job record (or 404,
modelled `none`), then delete the job if it is terminal and older than the
2-minute grace period counted from `job.created` (663-665). -/
def pollJob (now : Int) (jobs : JsMap String ProgressJob) (jobId : String) :
    Option JobPollRecord × JsMap String ProgressJob :=
  match JsMap.get jobs jobId with
  | none => (none, jobs)
  | some job =>
    let jobs? :=
      if (job.phase = .done ∨ job.phase = .jobError) ∧ now - job.created > JOB_GRACE_MS then
        JsMap.del jobs job.id
      else jobs
    (some (foundRecord jobId job), jobs?)

/-! ## Derived predicates -/

/-- "Every declared chunk index `0..totalChunks-1` is present." -/
def allChunksPresent (s : UploadSession) : Bool :=
  (List.range s.totalChunks.toNat).all (fun i => (JsMap.get s.chunks i).isSome)

/-- Well-formedness of a session's chunk map, as guaranteed by `putChunk`'s
index validation (784): keys are distinct and below `totalChunks`. -/
def chunksWF (s : UploadSession) : Prop :=
  (JsMap.keys s.chunks).Nodup ∧ ∀ k ∈ JsMap.keys s.chunks, (k : Int) < s.totalChunks

/-- `completeUpload` rejected the call (session untouched in the store). -/
def completeFailed : CompleteResult → Prop
  | .notFound => True
  | .incomplete => True
  | .missingChunk => True
  | .asyncStarted _ _ _ => False
  | .syncResult _ _ => False

/-- The amended result-cache eviction invariant for sessions: any session
whose declared size is a genuine (nonnegative) size has
`receivedBytes ≤ totalSize`. -/
def sessionsBytesOk (m : JsMap String UploadSession) : Prop :=
  ∀ p ∈ m, 0 ≤ p.2.totalSize → p.2.receivedBytes ≤ p.2.totalSize

/-- The limiter's internal consistency: `active` counts exactly the
started-unfinished tasks, and never exceeds the bound. -/
def limInv (max : Nat) (s : LimState) : Prop :=
  s.active = s.running.length ∧ s.active ≤ max

/-! ## Concrete fixtures for witnesses and counterexamples -/

/-- A deterministic codec stub: every image probes as 10×10 pixels and
encodes to the 3 bytes `[1, 2, 3]`. -/
def stubCodec : Codec :=
  { metadata := fun _ => some ⟨some 10, some 10⟩,
    resize := fun _ => some [0],
    encode := fun _ _ => some [1, 2, 3],
    resizeEncode := fun _ _ => some [1, 2, 3] }

def mib : Nat := 1048576

def bigBuf (n : Nat) : List Nat := List.replicate n 7

/-- C5 scenario: fill the cache, overwrite `"k1"` in place (resetting its
age but not its position), then admit an entry that forces eviction. -/
def c5Ops : List CacheOp :=
  [ .insert 0 "k1" (bigBuf (150 * mib)) "image/png" "a.png",
    .insert 0 "k2" (bigBuf (100 * mib)) "image/png" "b.png",
    .insert 1000 "k1" (bigBuf (40 * mib)) "image/png" "a.png",
    .insert 2000 "k3" (bigBuf (200 * mib)) "image/png" "c.png" ]

/-- The first three operations of the C5 scenario (before the pressured
admission). -/
def c5Ops3 : List CacheOp :=
  [ .insert 0 "k1" (bigBuf (150 * mib)) "image/png" "a.png",
    .insert 0 "k2" (bigBuf (100 * mib)) "image/png" "b.png",
    .insert 1000 "k1" (bigBuf (40 * mib)) "image/png" "a.png" ]

/-- C5: entry for `"k1"` after its in-place overwrite at time 1000. -/
def c5E1b : CacheEntry := ⟨bigBuf (40 * mib), "image/png", "a.png", 41943040, 1000⟩

/-- C5: entry for `"k2"`, inserted second but never updated (created 0). -/
def c5E2 : CacheEntry := ⟨bigBuf (100 * mib), "image/png", "b.png", 104857600, 0⟩

/-- C5: entry for `"k3"`, whose admission forces eviction. -/
def c5E3 : CacheEntry := ⟨bigBuf (200 * mib), "image/png", "c.png", 209715200, 2000⟩

/-- C2 scenario: five jobs scheduled through `scheduleJob`, each reaching
its codec invocation before any finishes. -/
def c2Events : List AsyncEvent :=
  [ .schedule 1, .schedule 2, .schedule 3, .schedule 4, .schedule 5,
    .startCodec 1, .startCodec 2, .startCodec 3, .startCodec 4, .startCodec 5 ]

/-- C6 scenario: a chunked upload with a content hash, completed through
the asynchronous (`progress=1`) path. -/
def c6InitReq : InitRequest :=
  { filename := some "big.png", size := some 5, mime := some "image/png",
    totalChunks := some 1, quality := some 80, hash := some "h",
    clientId := some "client1" }

def c6St1 : ServerState := (initUpload 0 "u1" emptyState c6InitReq).2

def c6St2 : ServerState :=
  { c6St1 with sessions := (putChunk 1 c6St1.sessions "u1" 0 [9, 9, 9, 9, 9]).2 }

def c6St3 : ServerState := (completeUpload stubCodec 2 "job1" c6St2 "u1" none true).2

def fallbackJob : ProgressJob :=
  ⟨"", "", "", "", [], 0, 0, .queued, 0, none, none, none, none⟩

def c6Job : ProgressJob := (JsMap.get c6St3.jobs "job1").getD fallbackJob

/-- The state once the scheduled `processJob` has run (the `setImmediate`
callback of 564 firing). -/
def c6St4 : ServerState :=
  { c6St3 with cache := (processJob stubCodec 3 c6Job c6St3.cache).2,
               jobs := JsMap.set c6St3.jobs "job1" (processJob stubCodec 3 c6Job c6St3.cache).1 }

/-- C6 witness fixture: a cache entry recorded in the dedup index. -/
def c6WitnessEntry : CacheEntry := ⟨[7, 7], "image/png", "old.png", 2, 0⟩

def c6WitnessState : ServerState :=
  ⟨[], [("cid", c6WitnessEntry)], [("h:80", "cid")], []⟩

/-- C7 scenario: `init` accepts a declared chunk count of `-1`
(`Number.isFinite(-1)` holds at 712). -/
def c7Req : InitRequest :=
  { filename := some "neg.png", size := some 0, mime := some "image/png",
    totalChunks := some (-1) }

def c7St : ServerState := (initUpload 0 "s1" emptyState c7Req).2

/-- The session `init` creates for `c7Req`. -/
def c7BadSession : UploadSession :=
  ⟨"s1", "neg.png", "image/png", 0, -1, 0, [], 0, 0, some 70, none, none⟩

/-- C8 scenario: `init` accepts a declared size of `-1`. -/
def c8ReqBad : InitRequest :=
  { filename := some "bad.png", size := some (-1), mime := some "image/png",
    totalChunks := some 1 }

def c8ReqOk : InitRequest :=
  { filename := some "ok.png", size := some 3, mime := some "image/png",
    totalChunks := some 1 }

def c8St : ServerState := (initUpload 0 "ok" (initUpload 0 "bad" emptyState c8ReqBad).2 c8ReqOk).2

def c8After : ChunkResult × JsMap String UploadSession :=
  putChunk 5 c8St.sessions "ok" 0 [1, 2, 3]

/-- The session `init` creates for `c8ReqBad`. -/
def c8BadSession : UploadSession :=
  ⟨"bad", "bad.png", "image/png", -1, 1, 0, [], 0, 0, some 70, none, none⟩

/-- C9 scenario: a job that finished at `created = 0`. -/
def c9Job : ProgressJob :=
  { id := "j", clientId := "c", originalName := "a.png", mime := "image/png",
    buffer := [1], quality := 70, created := 0, phase := .done, progress := 1,
    resultId := some "c", compressedSize := some 1,
    downloadUrl := some "/api/download/c" }

/-- C3 witness fixture: a 5-byte job for the stub codec. -/
def c3Job : ProgressJob :=
  { fallbackJob with buffer := [9, 9, 9, 9, 9], clientId := "c" }

/-- C4 witness fixture: a two-chunk session that already received chunk 0. -/
def c4Session : UploadSession :=
  ⟨"s", "f.png", "image/png", 10, 2, 4, [(0, [5, 5, 5, 5])], 0, 0, some 70, none, none⟩

/-- C3/C7 witness fixture: a fully received two-chunk session. -/
def c7Session : UploadSession :=
  ⟨"w", "w.png", "image/png", 4, 2, 4, [(0, [1, 2]), (1, [3, 4])], 0, 0, some 70, none, none⟩

def c7WitnessState : ServerState := ⟨[("w", c7Session)], [], [], []⟩

/-! ## Helper lemmas: the `JsMap` model -/

namespace JsMap

variable {κ α : Type} [DecidableEq κ]

theorem get_set_self (m : JsMap κ α) (k : κ) (v : α) : get (set m k v) k = some v := by
  induction m with
  | nil => simp [set, get]
  | cons p rest ih =>
    obtain ⟨k?, v?⟩ := p
    by_cases h : k? = k
    · simp [set, h, get]
    · simp [set, h, get, ih]

theorem mem_of_mem_set {m : JsMap κ α} {k : κ} {v : α} {p : κ × α}
    (hp : p ∈ set m k v) : p.2 = v ∨ p ∈ m := by
  induction m with
  | nil =>
    simp only [set, List.mem_singleton] at hp
    exact Or.inl (by simp [hp])
  | cons q rest ih =>
    obtain ⟨k?, v?⟩ := q
    by_cases h : k? = k
    · simp only [set, h, if_pos rfl] at hp
      rcases List.mem_cons.mp hp with h1 | h1
      · exact Or.inl (by simp [h1])
      · exact Or.inr (List.mem_cons_of_mem _ h1)
    · simp only [set, if_neg h] at hp
      rcases List.mem_cons.mp hp with h1 | h1
      · exact Or.inr (h1 ▸ List.mem_cons_self _ _)
      · rcases ih h1 with h2 | h2
        · exact Or.inl h2
        · exact Or.inr (List.mem_cons_of_mem _ h2)

theorem mem_of_get {m : JsMap κ α} {k : κ} {v : α} (h : get m k = some v) : (k, v) ∈ m := by
  induction m with
  | nil => simp [get] at h
  | cons p rest ih =>
    obtain ⟨k?, v?⟩ := p
    by_cases hk : k? = k
    · simp only [get, if_pos hk] at h
      subst hk
      injection h with h
      subst h
      exact List.mem_cons_self _ _
    · simp only [get, if_neg hk] at h
      exact List.mem_cons_of_mem _ (ih h)

theorem mem_del_set {m : JsMap κ α} {k : κ} {v : α} {p : κ × α}
    (hp : p ∈ del (set m k v) k) : p ∈ m := by
  induction m with
  | nil => simp [set, del] at hp
  | cons q rest ih =>
    obtain ⟨k?, v?⟩ := q
    by_cases h : k? = k
    · simp only [set, del, h, if_pos rfl] at hp
      exact List.mem_cons_of_mem _ hp
    · simp only [set, del, if_neg h] at hp
      rcases List.mem_cons.mp hp with h1 | h1
      · exact h1 ▸ List.mem_cons_self _ _
      · exact List.mem_cons_of_mem _ (ih h1)

theorem isSome_get_iff_mem_keys {m : JsMap κ α} {k : κ} :
    (get m k).isSome ↔ k ∈ keys m := by
  induction m with
  | nil => simp [get, keys]
  | cons p rest ih =>
    obtain ⟨k?, v?⟩ := p
    by_cases h : k? = k
    · simp [get, keys, h]
    · simp only [get, if_neg h, keys, List.map_cons, List.mem_cons]
      rw [ih]
      constructor
      · exact Or.inr
      · rintro (h1 | h1)
        · exact absurd h1.symm h
        · exact h1

theorem keys_set_of_isSome {m : JsMap κ α} {k : κ} (v : α) (h : (get m k).isSome) :
    keys (set m k v) = keys m := by
  induction m with
  | nil => simp [get] at h
  | cons p rest ih =>
    obtain ⟨k?, v?⟩ := p
    by_cases hk : k? = k
    · simp [set, hk, keys]
    · simp only [get, if_neg hk] at h
      have h2 := ih h
      simp only [keys, List.map_cons] at h2 ⊢
      simp [set, if_neg hk, h2]

theorem keys_set_of_none {m : JsMap κ α} {k : κ} (v : α) (h : get m k = none) :
    keys (set m k v) = keys m ++ [k] := by
  induction m with
  | nil => simp [set, keys]
  | cons p rest ih =>
    obtain ⟨k?, v?⟩ := p
    by_cases hk : k? = k
    · simp [get, hk] at h
    · simp only [get, if_neg hk] at h
      have h2 := ih h
      simp only [keys, List.map_cons] at h2 ⊢
      simp [set, if_neg hk, h2]

theorem nodup_keys_set {m : JsMap κ α} {k : κ} (v : α) (h : (keys m).Nodup) :
    (keys (set m k v)).Nodup := by
  cases hg : get m k with
  | some w => rw [keys_set_of_isSome v (by simp [hg])]; exact h
  | none =>
    rw [keys_set_of_none v hg]
    refine List.Nodup.append h (List.nodup_singleton k) ?_
    intro x hx hx1
    rw [List.mem_singleton] at hx1
    subst hx1
    exact absurd (isSome_get_iff_mem_keys.mpr hx) (by simp [hg])

theorem length_set_le (m : JsMap κ α) (k : κ) (v : α) :
    (set m k v).length ≤ m.length + 1 := by
  induction m with
  | nil => simp [set]
  | cons p rest ih =>
    obtain ⟨k?, v?⟩ := p
    by_cases h : k? = k
    · simp [set, h]
    · simpa [set, if_neg h] using ih

end JsMap

/-! ## Helper lemmas: the result cache -/

theorem currentCacheBytes_cons (p : String × CacheEntry) (c : ResultCache) :
    currentCacheBytes (p :: c) = p.2.size + currentCacheBytes c := by
  simp [currentCacheBytes]

theorem cacheBytes_set_le (c : ResultCache) (k : String) (e : CacheEntry) :
    currentCacheBytes (JsMap.set c k e) ≤ currentCacheBytes c + e.size := by
  induction c with
  | nil => simp [JsMap.set, currentCacheBytes]
  | cons p rest ih =>
    obtain ⟨k?, v?⟩ := p
    by_cases h : k? = k
    · simp only [JsMap.set, if_pos h, currentCacheBytes_cons]
      omega
    · simp only [JsMap.set, if_neg h, currentCacheBytes_cons]
      omega

theorem cacheBytes_filter_le (p : String × CacheEntry → Bool) (c : ResultCache) :
    currentCacheBytes (c.filter p) ≤ currentCacheBytes c := by
  induction c with
  | nil => simp
  | cons q rest ih =>
    rw [List.filter_cons]
    by_cases h : p q = true
    · rw [if_pos h, currentCacheBytes_cons, currentCacheBytes_cons]
      omega
    · rw [if_neg h, currentCacheBytes_cons]
      omega

theorem evictLoop_budget (extra : Nat) (h : extra ≤ MAX_CACHE_BYTES) (c : ResultCache) :
    currentCacheBytes (evictLoop extra c) + extra ≤ MAX_CACHE_BYTES ∧
      (evictLoop extra c).length < MAX_CACHE_ITEMS := by
  induction c with
  | nil =>
    constructor
    · simpa [evictLoop, currentCacheBytes] using h
    · simp [evictLoop, MAX_CACHE_ITEMS]
  | cons e rest ih =>
    by_cases hc : currentCacheBytes (e :: rest) + extra > MAX_CACHE_BYTES
        ∨ (e :: rest).length ≥ MAX_CACHE_ITEMS
    · simpa only [evictLoop, if_pos hc] using ih
    · simp only [evictLoop, if_neg hc]
      push_neg at hc
      exact ⟨by omega, by omega⟩

theorem evictLoop_suffix (extra : Nat) (c : ResultCache) :
    ∃ n, evictLoop extra c = c.drop n := by
  induction c with
  | nil => exact ⟨0, rfl⟩
  | cons e rest ih =>
    by_cases hc : currentCacheBytes (e :: rest) + extra > MAX_CACHE_BYTES
        ∨ (e :: rest).length ≥ MAX_CACHE_ITEMS
    · obtain ⟨n, hn⟩ := ih
      exact ⟨n + 1, by simpa only [evictLoop, if_pos hc, List.drop_succ_cons] using hn⟩
    · exact ⟨0, by simp only [evictLoop, if_neg hc, List.drop_zero]⟩

theorem evictIfNeeded_oversize (now : Int) (extra : Nat) (c : ResultCache)
    (h : MAX_CACHE_BYTES < extra) : evictIfNeeded now extra c = (false, c) := by
  simp [evictIfNeeded, h]

theorem evictIfNeeded_fast (now : Int) (extra : Nat) (c : ResultCache)
    (h1 : ¬extra > MAX_CACHE_BYTES)
    (h2 : currentCacheBytes c + extra ≤ MAX_CACHE_BYTES ∧ c.length < MAX_CACHE_ITEMS) :
    evictIfNeeded now extra c = (true, c) := by
  unfold evictIfNeeded
  rw [if_neg h1, if_pos h2]

theorem evictIfNeeded_fst_true (now : Int) (extra : Nat) (c : ResultCache)
    (h : extra ≤ MAX_CACHE_BYTES) : (evictIfNeeded now extra c).1 = true := by
  unfold evictIfNeeded
  rw [if_neg (by omega)]
  by_cases h2 : currentCacheBytes c + extra ≤ MAX_CACHE_BYTES ∧ c.length < MAX_CACHE_ITEMS
  · rw [if_pos h2]
  · rw [if_neg h2]
    exact decide_eq_true (evictLoop_budget extra h (ttlSweep now c)).1

theorem evictIfNeeded_true_budget (now : Int) (extra : Nat) (c : ResultCache)
    (h : (evictIfNeeded now extra c).1 = true) :
    currentCacheBytes (evictIfNeeded now extra c).2 + extra ≤ MAX_CACHE_BYTES ∧
      (evictIfNeeded now extra c).2.length < MAX_CACHE_ITEMS := by
  unfold evictIfNeeded at h ⊢
  by_cases h1 : extra > MAX_CACHE_BYTES
  · rw [if_pos h1] at h
    simp at h
  · rw [if_neg h1] at h ⊢
    by_cases h2 : currentCacheBytes c + extra ≤ MAX_CACHE_BYTES ∧ c.length < MAX_CACHE_ITEMS
    · rw [if_pos h2]
      exact h2
    · rw [if_neg h2]
      exact evictLoop_budget extra (by omega) (ttlSweep now c)

theorem evictIfNeeded_snd_of_false (now : Int) (extra : Nat) (c : ResultCache)
    (h : (evictIfNeeded now extra c).1 = false) :
    (evictIfNeeded now extra c).2 = c ∧ MAX_CACHE_BYTES < extra := by
  by_cases h1 : MAX_CACHE_BYTES < extra
  · rw [evictIfNeeded_oversize now extra c h1]
    exact ⟨rfl, h1⟩
  · rw [evictIfNeeded_fst_true now extra c (by omega)] at h
    cases h

theorem goodCache_nil : goodCache [] :=
  ⟨by simp [currentCacheBytes], by simp⟩

theorem goodCache_cacheInsert (now : Int) (k : String) (buf : List Nat) (mi fn : String)
    {c : ResultCache} (h : goodCache c) : goodCache (cacheInsert now k buf mi fn c) := by
  unfold cacheInsert
  by_cases hb : (evictIfNeeded now buf.length c).1 = true
  · rw [if_pos hb]
    have h2 := evictIfNeeded_true_budget now buf.length c hb
    constructor
    · exact le_trans (cacheBytes_set_le _ _ _) h2.1
    · exact le_trans (JsMap.length_set_le _ _ _) (by omega)
  · rw [if_neg hb]
    rw [(evictIfNeeded_snd_of_false now buf.length c (by simpa using hb)).1]
    exact h

theorem goodCache_sweep (now : Int) {c : ResultCache} (h : goodCache c) :
    goodCache (ttlSweep now c) :=
  ⟨le_trans (cacheBytes_filter_le _ _) h.1, le_trans (List.length_filter_le _ _) h.2⟩

theorem applyCacheOp_insert (c : ResultCache) (now : Int) (k : String) (buf : List Nat)
    (mi fn : String) :
    applyCacheOp c (.insert now k buf mi fn) = cacheInsert now k buf mi fn c := rfl

theorem goodCache_applyCacheOp {c : ResultCache} (h : goodCache c) (op : CacheOp) :
    goodCache (applyCacheOp c op) := by
  cases op with
  | insert now k buf mi fn => exact goodCache_cacheInsert now k buf mi fn h
  | sweep now => exact goodCache_sweep now h

theorem goodCache_foldl (ops : List CacheOp) :
    ∀ c : ResultCache, goodCache c → goodCache (ops.foldl applyCacheOp c) := by
  induction ops with
  | nil => exact fun c h => h
  | cons op rest ih => exact fun c h => ih _ (goodCache_applyCacheOp h op)

/-! ## Helper lemmas: the limiter -/

theorem limInv_limNext (max : Nat) {s : LimState} (h : limInv max s) :
    limInv max (limNext max s) := by
  obtain ⟨a, q, r⟩ := s
  obtain ⟨h1, h2⟩ := h
  simp only [limInv] at h1 h2 ⊢
  unfold limNext
  by_cases hge : a ≥ max
  · rw [if_pos hge]
    exact ⟨h1, h2⟩
  · rw [if_neg hge]
    cases q with
    | nil => exact ⟨h1, h2⟩
    | cons t rest =>
      refine ⟨?_, ?_⟩
      · simp [h1]
      · simp
        omega

theorem limInv_limStep (max : Nat) {s : LimState} (h : limInv max s) (e : LimEvent) :
    limInv max (limStep max s e) := by
  cases e with
  | submit t =>
    exact limInv_limNext max ⟨h.1, h.2⟩
  | finish t =>
    simp only [limStep]
    by_cases ht : t ∈ s.running
    · rw [if_pos ht]
      apply limInv_limNext
      have h3 := List.length_erase_of_mem ht
      have h4 : 1 ≤ s.running.length := List.length_pos.mpr (List.ne_nil_of_mem ht)
      have h5 := h.1
      have h6 := h.2
      refine ⟨?_, ?_⟩
      · show s.active - 1 = (s.running.erase t).length
        omega
      · show s.active - 1 ≤ max
        omega
    · rw [if_neg ht]
      exact h

theorem limInv_foldl (max : Nat) (evs : List LimEvent) :
    ∀ s, limInv max s → limInv max (evs.foldl (limStep max) s) := by
  induction evs with
  | nil => exact fun s h => h
  | cons e rest ih => exact fun s h => ih _ (limInv_limStep max h e)

/-! ## Helper lemmas: chunk maps -/

namespace JsMap

theorem mem_keys_set {κ α : Type} [DecidableEq κ] {m : JsMap κ α} {k k? : κ} {v : α}
    (h : k? ∈ keys (set m k v)) : k? ∈ keys m ∨ k? = k := by
  cases hg : get m k with
  | some w =>
    rw [keys_set_of_isSome v (by simp [hg])] at h
    exact Or.inl h
  | none =>
    rw [keys_set_of_none v hg] at h
    rcases List.mem_append.mp h with h1 | h1
    · exact Or.inl h1
    · exact Or.inr (List.mem_singleton.mp h1)

end JsMap

theorem collectChunks_isSome_iff {m : JsMap Nat (List Nat)} {l : List Nat} :
    (collectChunks m l).isSome ↔ ∀ i ∈ l, (JsMap.get m i).isSome := by
  induction l with
  | nil => simp [collectChunks]
  | cons i rest ih =>
    cases hg : JsMap.get m i with
    | none => simp [collectChunks, hg]
    | some b => simp [collectChunks, hg, ih]

theorem assembleChunks_isSome_iff {m : JsMap Nat (List Nat)} {n : Nat} :
    (assembleChunks m n).isSome ↔ ∀ i < n, (JsMap.get m i).isSome := by
  rw [assembleChunks]
  rw [show (Option.map List.flatten (collectChunks m (List.range n))).isSome
        = (collectChunks m (List.range n)).isSome from by
      cases collectChunks m (List.range n) <;> rfl]
  rw [collectChunks_isSome_iff]
  constructor
  · exact fun h i hi => h i (List.mem_range.mpr hi)
  · exact fun h i hi => h i (List.mem_range.mp hi)

/-- Pigeonhole for chunk maps: for a well-formed session with a nonnegative
declared chunk count, the count check of `complete` (807) is equivalent to
all declared indices being present. -/
theorem count_iff_all_present {s : UploadSession} (hwf : chunksWF s)
    (h0 : 0 ≤ s.totalChunks) :
    ((s.chunks.length : Int) = s.totalChunks) ↔ allChunksPresent s = true := by
  obtain ⟨hnd, hbound⟩ := hwf
  have hkeylen : (JsMap.keys s.chunks).length = s.chunks.length := List.length_map _ _
  have hsub : (JsMap.keys s.chunks).toFinset ⊆ Finset.range s.totalChunks.toNat := by
    intro k hk
    rw [List.mem_toFinset] at hk
    rw [Finset.mem_range]
    have := hbound k hk
    omega
  have hcard : (JsMap.keys s.chunks).toFinset.card = s.chunks.length := by
    rw [List.toFinset_card_of_nodup hnd, hkeylen]
  constructor
  · intro hn
    have hlen : s.chunks.length = s.totalChunks.toNat := by omega
    have heq : (JsMap.keys s.chunks).toFinset = Finset.range s.totalChunks.toNat :=
      Finset.eq_of_subset_of_card_le hsub (by rw [hcard, hlen, Finset.card_range])
    rw [allChunksPresent, List.all_eq_true]
    intro i hi
    rw [List.mem_range] at hi
    have h5 : i ∈ (JsMap.keys s.chunks).toFinset := heq ▸ Finset.mem_range.mpr hi
    rw [List.mem_toFinset] at h5
    exact JsMap.isSome_get_iff_mem_keys.mpr h5
  · intro hp
    have hsub2 : Finset.range s.totalChunks.toNat ⊆ (JsMap.keys s.chunks).toFinset := by
      intro i hi
      rw [Finset.mem_range] at hi
      rw [List.mem_toFinset]
      apply JsMap.isSome_get_iff_mem_keys.mp
      rw [allChunksPresent, List.all_eq_true] at hp
      exact hp i (List.mem_range.mpr hi)
    have heq := Finset.Subset.antisymm hsub hsub2
    have h6 := congrArg Finset.card heq
    rw [hcard, Finset.card_range] at h6
    omega

/-! ## Helper lemmas: upload sessions -/

theorem get_del_set_self_of_nodup {κ α : Type} [DecidableEq κ]
    {m : JsMap κ α} (k : κ) (v : α) (h : (JsMap.keys m).Nodup) :
    JsMap.get (JsMap.del (JsMap.set m k v) k) k = none := by
  induction m with
  | nil => simp [JsMap.set, JsMap.del, JsMap.get]
  | cons p rest ih =>
    obtain ⟨k?, v?⟩ := p
    simp only [JsMap.keys, List.map_cons, List.nodup_cons] at h
    by_cases hk : k? = k
    · simp only [JsMap.set, JsMap.del, if_pos hk]
      cases hg : JsMap.get rest k with
      | none => rfl
      | some w =>
        exfalso
        have hmem : k ∈ JsMap.keys rest :=
          JsMap.isSome_get_iff_mem_keys.mp (by rw [hg]; rfl)
        exact h.1 (hk ▸ hmem)
    · simp only [JsMap.set, JsMap.del, if_neg hk, JsMap.get]
      exact ih h.2

/-- What `initContinue` can do to the session store: leave it unchanged,
or add a fresh session with no chunks and zero received bytes. -/
theorem initContinue_sessions_cases (now : Int) (fid : String) (st : ServerState)
    (req : InitRequest) (q : Int) :
    (initContinue now fid st req q).2.sessions = st.sessions ∨
    ∃ s : UploadSession, s.chunks = [] ∧ s.receivedBytes = 0 ∧
      (initContinue now fid st req q).2.sessions = JsMap.set st.sessions fid s := by
  unfold initContinue
  split
  · exact Or.inl rfl
  · split
    · exact Or.inl rfl
    · exact Or.inr ⟨_, rfl, rfl, rfl⟩

theorem initContinue_hashIndex (now : Int) (fid : String) (st : ServerState)
    (req : InitRequest) (q : Int) :
    (initContinue now fid st req q).2.hashIndex = st.hashIndex := by
  unfold initContinue
  split
  · rfl
  · split
    · rfl
    · rfl

theorem initContinue_not_instant (now : Int) (fid : String) (st : ServerState)
    (req : InitRequest) (q : Int) (uid : String) (item : CompressItemResult) :
    (initContinue now fid st req q).1 ≠ .instant uid item := by
  unfold initContinue
  split
  · intro h
    cases h
  · split
    · intro h
      cases h
    · intro h
      cases h

/-- What `initUpload` can do to the session store. -/
theorem initUpload_sessions_cases (now : Int) (fid : String) (st : ServerState)
    (req : InitRequest) :
    (initUpload now fid st req).2.sessions = st.sessions ∨
    ∃ s : UploadSession, s.chunks = [] ∧ s.receivedBytes = 0 ∧
      (initUpload now fid st req).2.sessions = JsMap.set st.sessions fid s := by
  unfold initUpload
  split
  · exact Or.inl rfl
  · split
    · exact Or.inl rfl
    · split
      · exact Or.inl rfl
      · split
        · split
          · split
            · exact Or.inl rfl
            · exact initContinue_sessions_cases now fid _ req _
          · exact initContinue_sessions_cases now fid _ req _
        · exact initContinue_sessions_cases now fid st req _

/-- What `putChunk` can do to the session store: leave it unchanged
(error or duplicate), accept the chunk (updating the session in place,
with the post-acceptance size check passed), or accept and then abort the
session (`upload_size_mismatch`). -/
theorem putChunk_sessions_cases (now : Int) (m : JsMap String UploadSession)
    (uid : String) (idx : Int) (ch : List Nat) :
    (putChunk now m uid idx ch).2 = m ∨
    ∃ s, JsMap.get m uid = some s ∧ ¬(idx < 0 ∨ idx ≥ s.totalChunks) ∧
      (((putChunk now m uid idx ch).2 = JsMap.set m uid (chunkAccept now s idx.toNat ch) ∧
        ¬((chunkAccept now s idx.toNat ch).receivedBytes > s.totalSize)) ∨
       ((putChunk now m uid idx ch).2
          = JsMap.del (JsMap.set m uid (chunkAccept now s idx.toNat ch)) uid ∧
        (chunkAccept now s idx.toNat ch).receivedBytes > s.totalSize)) := by
  unfold putChunk
  split
  · exact Or.inl rfl
  · next s hs =>
    split
    · exact Or.inl rfl
    · next hidx =>
      split
      · exact Or.inl rfl
      · split
        · next hover => exact Or.inr ⟨s, hs, hidx, Or.inr ⟨rfl, hover⟩⟩
        · next hover => exact Or.inr ⟨s, hs, hidx, Or.inl ⟨rfl, hover⟩⟩

/-! ## Claim C1 -/

/-- C1: after every completed result-cache operation (admission+insertion
from a finished job, or a TTL sweep), the resident bytes are at most
`MAX_CACHE_BYTES` and the entry count at most `MAX_CACHE_ITEMS`; moreover
`evictIfNeeded` returns `false` (leaving the cache untouched) for any
single entry larger than the byte budget, so such an entry is never
inserted. -/
theorem C1_cache_budget_invariant :
    (∀ ops : List CacheOp, goodCache (runCacheOps ops)) ∧
    (∀ (now : Int) (extra : Nat) (c : ResultCache), MAX_CACHE_BYTES < extra →
      evictIfNeeded now extra c = (false, c)) ∧
    (∀ (now : Int) (k : String) (buf : List Nat) (mi fn : String) (c : ResultCache),
      MAX_CACHE_BYTES < buf.length → cacheInsert now k buf mi fn c = c) := by
  refine ⟨fun ops => goodCache_foldl ops [] goodCache_nil,
          fun now extra c h => evictIfNeeded_oversize now extra c h,
          fun now k buf mi fn c h => ?_⟩
  simp only [cacheInsert, evictIfNeeded_oversize now buf.length c h]
  simp

/-- Witness for C1 at concrete inputs: a small insertion keeps the budgets,
and an oversized buffer is rejected without touching the cache. -/
theorem C1_cache_budget_invariant_witness :
    goodCache (runCacheOps [.insert 0 "k" [1, 2, 3] "image/png" "a.png"]) ∧
    MAX_CACHE_BYTES < 314572801 ∧
    evictIfNeeded 0 314572801 [] = (false, []) ∧
    MAX_CACHE_BYTES < (bigBuf 314572801).length ∧
    cacheInsert 0 "k" (bigBuf 314572801) "image/png" "a.png" [] = [] := by
  refine ⟨C1_cache_budget_invariant.1 _, by decide,
          C1_cache_budget_invariant.2.1 0 314572801 [] (by decide),
          by rw [bigBuf, List.length_replicate]; decide,
          C1_cache_budget_invariant.2.2 0 "k" (bigBuf 314572801) "image/png" "a.png" []
            (by rw [bigBuf, List.length_replicate]; decide)⟩

/-! ## Claim C2 -/

/-- C2 counterexample: the asynchronous job path (`scheduleJob` →
`setImmediate(processJob)`) contains no limiter call, so five simultaneous
submissions put five codec invocations in flight — more than the bound
N=2 (or any bound) the claim asserts for "both the synchronous batch path
and the asynchronous job path". -/
theorem C2_async_unbounded_counterexample :
    concurrentCodec (asyncRun c2Events) = 5 ∧ 2 < concurrentCodec (asyncRun c2Events) := by
  decide

/-- C2 (amended): a single limiter instance does bound its own tasks —
after any event sequence, `active` counts exactly the started-unfinished
tasks and never exceeds `max`.  (In the source the only limiter instance
is `createLimiter(4)`, created per `/api/compress` request and used only
by the synchronous path; the asynchronous path bypasses it.) -/
theorem C2_limiter_bound :
    ∀ (max : Nat) (evs : List LimEvent),
      (limRun max evs).active = (limRun max evs).running.length ∧
      (limRun max evs).running.length ≤ max := by
  intro max evs
  have h := limInv_foldl max evs limInit ⟨rfl, Nat.zero_le _⟩
  have hr : limRun max evs = evs.foldl (limStep max) limInit := rfl
  rw [hr]
  exact ⟨h.1, by have h1 := h.1; have h2 := h.2; omega⟩

/-! ## Claim C3 -/

/-- C3: for a job whose input was not resized (pixel count at or below the
soft ceiling `MAX_PIXELS`), whenever the job completes, the reported
`compressedSize` is at most the input size and the cache entry stored
under the job's result id has exactly that size — because an encoded
output at least as large as the input is replaced by the input bytes
(544, 423-425).  The same holds for the synchronous `compressBuffer`
path. -/
theorem C3_no_growth_when_not_resized :
    (∀ (codec : Codec) (now : Int) (job : ProgressJob) (cache : ResultCache) (meta : ImgMeta),
      codec.metadata job.buffer = some meta →
      (meta.width.getD 0) * (meta.height.getD 0) ≤ MAX_PIXELS →
      (processJob codec now job cache).1.phase = .done →
      ∃ n, (processJob codec now job cache).1.compressedSize = some n ∧
        n ≤ job.buffer.length ∧
        ∃ e, JsMap.get (processJob codec now job cache).2 job.clientId = some e ∧
          e.size = n ∧ e.buffer.length = n) ∧
    (∀ (codec : Codec) (now : Int) (id nm mi : String) (buffer : List Nat) (q : Int)
      (oh : Option String) (cache : ResultCache) (hidx : JsMap String String) (meta : ImgMeta),
      codec.metadata buffer = some meta →
      (meta.width.getD 0) * (meta.height.getD 0) ≤ MAX_PIXELS →
      (compressBuffer codec now id nm mi buffer q oh cache hidx).1.itemError = none →
      ∃ n, (compressBuffer codec now id nm mi buffer q oh cache hidx).1.compressedSize
          = some n ∧ n ≤ buffer.length) := by
  constructor
  · intro codec now job cache meta hmeta hp hdone
    have hhard : ¬((meta.width.getD 0) * (meta.height.getD 0) > HARD_PIXEL_LIMIT) := by
      unfold MAX_PIXELS at hp
      unfold HARD_PIXEL_LIMIT
      omega
    have hle : ¬((meta.width.getD 0) * (meta.height.getD 0) > MAX_PIXELS) := by omega
    have hnr : needsResize meta = false := by
      simp [needsResize, hle]
    revert hdone
    simp only [processJob, hmeta, hnr, if_neg hhard, Bool.not_false, Bool.true_and,
      Bool.false_eq_true, if_false]
    split
    · intro hdone
      simp at hdone
    · split
      · intro hdone
        simp at hdone
      · split
        · next hge =>
            split
            · intro hdone
              simp at hdone
            · intro _
              exact ⟨_, rfl, le_refl _, _, JsMap.get_set_self _ _ _, rfl, rfl⟩
        · next hge =>
            split
            · intro hdone
              simp at hdone
            · intro _
              refine ⟨_, rfl, ?_, _, JsMap.get_set_self _ _ _, rfl, rfl⟩
              simp at hge
              omega
  · intro codec now id nm mi buffer q oh cache hidx meta hmeta hp herr
    have hhard : ¬((meta.width.getD 0) * (meta.height.getD 0) > HARD_PIXEL_LIMIT) := by
      unfold MAX_PIXELS at hp
      unfold HARD_PIXEL_LIMIT
      omega
    have hle : ¬((meta.width.getD 0) * (meta.height.getD 0) > MAX_PIXELS) := by omega
    have hnr : needsResize meta = false := by
      simp [needsResize, hle]
    by_cases hmime : mi ∈ ALLOWED_MIME
    · have hmime2 : ¬(mi ∉ ALLOWED_MIME) := fun hc => hc hmime
      revert herr
      simp only [compressBuffer, if_neg hmime2, hmeta, hnr, if_neg hhard,
        Bool.not_false, Bool.true_and, Bool.false_eq_true, if_false]
      split
      · intro herr
        simp at herr
      · split
        · intro herr
          simp at herr
        · split
          · next hge =>
              split
              · intro herr
                simp at herr
              · intro _
                exact ⟨_, rfl, le_refl _⟩
          · next hge =>
              split
              · intro herr
                simp at herr
              · intro _
                refine ⟨_, rfl, ?_⟩
                simp at hge
                omega
    · revert herr
      simp only [compressBuffer, if_pos hmime]
      intro herr
      simp at herr

/-- Witness for C3: a 5-byte input whose stub encode is 3 bytes completes
with `compressedSize = 3 ≤ 5`, and the cache entry has size 3. -/
theorem C3_no_growth_when_not_resized_witness :
    stubCodec.metadata c3Job.buffer = some ⟨some 10, some 10⟩ ∧
    ((some 10 : Option Nat).getD 0) * ((some 10 : Option Nat).getD 0) ≤ MAX_PIXELS ∧
    (processJob stubCodec 0 c3Job []).1.phase = .done ∧
    ∃ n, (processJob stubCodec 0 c3Job []).1.compressedSize = some n ∧
      n ≤ c3Job.buffer.length ∧
      ∃ e, JsMap.get (processJob stubCodec 0 c3Job []).2 c3Job.clientId = some e ∧
        e.size = n ∧ e.buffer.length = n := by
  refine ⟨rfl, by decide, by decide, ?_⟩
  exact C3_no_growth_when_not_resized.1 stubCodec 0 c3Job []
    ⟨some 10, some 10⟩ rfl (by decide) (by decide)

/-! ## Claim C4 -/

/-- C4: a `putChunk` for an index already in the session's received set
returns the current progress with `duplicate: true` and leaves the whole
session store (hence `receivedBytes` and the stored chunk bytes)
unchanged. -/
theorem C4_duplicate_chunk_idempotent :
    ∀ (now : Int) (sessions : JsMap String UploadSession) (uploadId : String)
      (s : UploadSession) (index : Int) (chunk : List Nat),
      JsMap.get sessions uploadId = some s →
      ¬(index < 0 ∨ index ≥ s.totalChunks) →
      (JsMap.get s.chunks index.toNat).isSome →
      putChunk now sessions uploadId index chunk =
        (.ok s.receivedBytes s.totalSize
           (decide ((s.chunks.length : Int) = s.totalChunks)) true, sessions) := by
  intro now sessions uploadId s index chunk hget hidx hdup
  simp only [putChunk, hget]
  rw [if_neg hidx, if_pos hdup]

/-- Witness for C4: chunk 0 of a two-chunk session is re-submitted. -/
theorem C4_duplicate_chunk_idempotent_witness :
    putChunk 9 [("s", c4Session)] "s" 0 [5, 5, 5, 5] =
      (.ok 4 10 false true, [("s", c4Session)]) := by
  have h := C4_duplicate_chunk_idempotent 9 [("s", c4Session)] "s" c4Session 0 [5, 5, 5, 5]
    rfl (by decide) (by decide)
  rw [h]
  rfl

/-! ## Claim C5 -/

/-- C5 counterexample: fill the cache with `"k1"` (150 MiB, t=0) and
`"k2"` (100 MiB, t=0), overwrite `"k1"` in place with 40 MiB at t=1000
(making it the most-recently-updated entry), then admit `"k3"` (200 MiB)
at t=2000.  The claim says the just-overwritten `"k1"` is protected and
the oldest-inserted unprotected entry (`"k2"`) is evicted; the code
evicts `"k1"` — `Map.set` on an existing key does not move it to the back
of the insertion order — and keeps `"k2"`. -/
theorem C5_overwritten_entry_evicted_counterexample :
    JsMap.get (runCacheOps c5Ops3) "k1" = some c5E1b ∧
    JsMap.get (runCacheOps c5Ops3) "k2" = some c5E2 ∧
    c5E2.created < c5E1b.created ∧
    JsMap.get (runCacheOps c5Ops) "k1" = none ∧
    JsMap.get (runCacheOps c5Ops) "k2" = some c5E2 ∧
    JsMap.get (runCacheOps c5Ops) "k3" = some c5E3 := by
  have l150 : (bigBuf (150 * mib)).length = 157286400 := by
    rw [bigBuf, List.length_replicate]
    decide
  have l100 : (bigBuf (100 * mib)).length = 104857600 := by
    rw [bigBuf, List.length_replicate]
    decide
  have l40 : (bigBuf (40 * mib)).length = 41943040 := by
    rw [bigBuf, List.length_replicate]
    decide
  have l200 : (bigBuf (200 * mib)).length = 209715200 := by
    rw [bigBuf, List.length_replicate]
    decide
  have h1 : cacheInsert 0 "k1" (bigBuf (150 * mib)) "image/png" "a.png" []
      = [("k1", ⟨bigBuf (150 * mib), "image/png", "a.png", 157286400, 0⟩)] := by
    unfold cacheInsert
    rw [l150]
    rfl
  have h2 : cacheInsert 0 "k2" (bigBuf (100 * mib)) "image/png" "b.png"
      [("k1", ⟨bigBuf (150 * mib), "image/png", "a.png", 157286400, 0⟩)]
      = [("k1", ⟨bigBuf (150 * mib), "image/png", "a.png", 157286400, 0⟩), ("k2", c5E2)] := by
    unfold cacheInsert
    rw [l100]
    rfl
  have h3 : cacheInsert 1000 "k1" (bigBuf (40 * mib)) "image/png" "a.png"
      [("k1", ⟨bigBuf (150 * mib), "image/png", "a.png", 157286400, 0⟩), ("k2", c5E2)]
      = [("k1", c5E1b), ("k2", c5E2)] := by
    unfold cacheInsert
    rw [l40]
    rfl
  have h4 : cacheInsert 2000 "k3" (bigBuf (200 * mib)) "image/png" "c.png"
      [("k1", c5E1b), ("k2", c5E2)] = [("k2", c5E2), ("k3", c5E3)] := by
    unfold cacheInsert
    rw [l200]
    rfl
  have hrun3 : runCacheOps c5Ops3 = [("k1", c5E1b), ("k2", c5E2)] := by
    show List.foldl applyCacheOp [] c5Ops3 = _
    rw [show c5Ops3 = [CacheOp.insert 0 "k1" (bigBuf (150 * mib)) "image/png" "a.png",
          CacheOp.insert 0 "k2" (bigBuf (100 * mib)) "image/png" "b.png",
          CacheOp.insert 1000 "k1" (bigBuf (40 * mib)) "image/png" "a.png"] from rfl]
    rw [List.foldl_cons, List.foldl_cons, List.foldl_cons, List.foldl_nil]
    rw [applyCacheOp_insert, applyCacheOp_insert, applyCacheOp_insert]
    rw [h1, h2, h3]
  have hrun4 : runCacheOps c5Ops = [("k2", c5E2), ("k3", c5E3)] := by
    show List.foldl applyCacheOp [] c5Ops = _
    rw [show c5Ops = [CacheOp.insert 0 "k1" (bigBuf (150 * mib)) "image/png" "a.png",
          CacheOp.insert 0 "k2" (bigBuf (100 * mib)) "image/png" "b.png",
          CacheOp.insert 1000 "k1" (bigBuf (40 * mib)) "image/png" "a.png",
          CacheOp.insert 2000 "k3" (bigBuf (200 * mib)) "image/png" "c.png"] from rfl]
    rw [List.foldl_cons, List.foldl_cons, List.foldl_cons, List.foldl_cons, List.foldl_nil]
    rw [applyCacheOp_insert, applyCacheOp_insert, applyCacheOp_insert, applyCacheOp_insert]
    rw [h1, h2, h3, h4]
  rw [hrun3, hrun4]
  exact ⟨rfl, rfl, by decide, rfl, rfl, rfl⟩

/-- C5 (amended): under admission pressure `evictIfNeeded` first removes
all TTL-expired entries and then evicts oldest-first in key-insertion
order — the surviving cache is a suffix of the TTL-filtered cache (or the
cache is untouched).  Overwriting an existing key replaces the value in
place: it resets the entry's TTL age but keeps the key's original
insertion position, so a just-overwritten entry is not protected from
insertion-order eviction. -/
theorem C5_eviction_two_pass_insertion_order :
    (∀ (now : Int) (extra : Nat) (c : ResultCache),
      (evictIfNeeded now extra c).2 = c ∨
      ∃ n, (evictIfNeeded now extra c).2 = (ttlSweep now c).drop n) ∧
    (∀ (c : ResultCache) (k : String) (e : CacheEntry),
      (JsMap.get c k).isSome → JsMap.keys (JsMap.set c k e) = JsMap.keys c) ∧
    (∀ (c : ResultCache) (k : String) (e : CacheEntry),
      JsMap.get (JsMap.set c k e) k = some e) := by
  refine ⟨fun now extra c => ?_, fun c k e h => JsMap.keys_set_of_isSome e h,
          fun c k e => JsMap.get_set_self c k e⟩
  unfold evictIfNeeded
  by_cases h1 : extra > MAX_CACHE_BYTES
  · rw [if_pos h1]
    exact Or.inl rfl
  · rw [if_neg h1]
    by_cases h2 : currentCacheBytes c + extra ≤ MAX_CACHE_BYTES ∧ c.length < MAX_CACHE_ITEMS
    · rw [if_pos h2]
      exact Or.inl rfl
    · rw [if_neg h2]
      exact Or.inr (evictLoop_suffix extra (ttlSweep now c))

/-- Witness for C5 (amended): overwriting the present key `"a"` keeps the
key order, and the overwritten value is read back. -/
theorem C5_eviction_two_pass_insertion_order_witness :
    (JsMap.get [("a", c5E2), ("b", c5E3)] "a").isSome = true ∧
    JsMap.keys (JsMap.set [("a", c5E2), ("b", c5E3)] "a" c5E1b) = ["a", "b"] ∧
    JsMap.get (JsMap.set [("a", c5E2), ("b", c5E3)] "a" c5E1b) "a" = some c5E1b ∧
    ((evictIfNeeded 0 1 []).2 = [] ∨ ∃ n, (evictIfNeeded 0 1 []).2 = (ttlSweep 0 []).drop n) := by
  refine ⟨rfl, ?_, C5_eviction_two_pass_insertion_order.2.2 _ "a" c5E1b,
          C5_eviction_two_pass_insertion_order.1 0 1 []⟩
  exact C5_eviction_two_pass_insertion_order.2.1 [("a", c5E2), ("b", c5E3)] "a" c5E1b rfl

/-! ## Claim C6 -/

/-- C6 counterexample: a chunked upload with content hash `"h"` completes
through the asynchronous (`progress=1`) path; `processJob` stores the
result in the cache under the client id but — unlike `compressBuffer` —
never records `(hash, quality)` in `COMPRESSED_HASH_INDEX` (compare
428-431 with 545-554).  A second `init` with the same hash and quality,
while the first result is still resident, is therefore not instant: it
opens a fresh session.  This contradicts the claim as stated for "every
pair of init calls ... where the first upload has completed". -/
theorem C6_async_complete_no_dedup_counterexample :
    JsMap.get c6St4.jobs "job1"
      = some { id := "job1", clientId := "client1", originalName := "big.png",
               mime := "image/png", buffer := [9, 9, 9, 9, 9], quality := 80,
               created := 2, phase := .done, progress := 1,
               resultId := some "client1", compressedSize := some 3,
               downloadUrl := some "/api/download/client1" } ∧
    JsMap.get c6St4.cache "client1" = some ⟨[1, 2, 3], "image/png", "big.png", 3, 3⟩ ∧
    c6St4.hashIndex = [] ∧
    (initUpload 10 "u2" c6St4 c6InitReq).1 = .fresh "u2" := by
  decide

/-- C6 (amended): the dedup instant path works exactly when a dedup-index
entry exists and its cache entry is resident — then `init` returns
`instant` with the indexed result id and its cached size, touching
nothing (and `initUpload` takes no codec at all); when the index points
at an evicted entry, the stale index entry is deleted and normal session
processing proceeds (the result is never `instant`).  The index is
recorded only by the synchronous `compressBuffer` path (428-431): a
successful `compressBuffer` with a hash leaves the index mapping
`(hash, quality)` to a resident cache entry whose size is the reported
`compressedSize`.  Completions through the asynchronous job path record
nothing. -/
theorem C6_dedup_instant_and_stale_cleanup :
    (∀ (now : Int) (fid : String) (st : ServerState) (req : InitRequest)
       (cid : String) (entry : CacheEntry),
      truthyStr req.filename = true → req.size.isNone = false →
      truthyStr req.mime = true → req.totalChunks.isNone = false →
      req.mime.getD "" ∈ ALLOWED_MIME → ¬(req.size.getD 0 > CHUNK_MAX_FILE) →
      truthyStr req.hash = true →
      JsMap.get st.hashIndex
        (req.hash.getD "" ++ ":" ++ toString (initQuality req.quality)) = some cid →
      JsMap.get st.cache cid = some entry →
      initUpload now fid st req
        = (.instant fid
            { id := cid, originalName := req.filename.getD "", mime := some entry.mime,
              originalSize := some entry.size, compressedSize := some entry.size,
              downloadUrl := some ("/api/download/" ++ cid) }, st)) ∧
    (∀ (now : Int) (fid : String) (st : ServerState) (req : InitRequest) (cid : String),
      truthyStr req.filename = true → req.size.isNone = false →
      truthyStr req.mime = true → req.totalChunks.isNone = false →
      req.mime.getD "" ∈ ALLOWED_MIME → ¬(req.size.getD 0 > CHUNK_MAX_FILE) →
      truthyStr req.hash = true →
      JsMap.get st.hashIndex
        (req.hash.getD "" ++ ":" ++ toString (initQuality req.quality)) = some cid →
      JsMap.get st.cache cid = none →
      (initUpload now fid st req).2.hashIndex
          = JsMap.del st.hashIndex
              (req.hash.getD "" ++ ":" ++ toString (initQuality req.quality)) ∧
      (∀ (uid : String) (item : CompressItemResult),
        (initUpload now fid st req).1 ≠ .instant uid item)) ∧
    (∀ (codec : Codec) (now : Int) (id nm mi : String) (buf : List Nat) (qq : Int)
       (h : String) (cache : ResultCache) (hidx : JsMap String String),
      h ≠ "" →
      (compressBuffer codec now id nm mi buf qq (some h) cache hidx).1.itemError = none →
      JsMap.get (compressBuffer codec now id nm mi buf qq (some h) cache hidx).2.2
          (h ++ ":" ++ toString qq) = some id ∧
      ∃ e, JsMap.get (compressBuffer codec now id nm mi buf qq (some h) cache hidx).2.1 id
            = some e ∧
        (compressBuffer codec now id nm mi buf qq (some h) cache hidx).1.compressedSize
            = some e.size) := by
  refine ⟨fun now fid st req cid entry hfn hsz htm htc hmime hsize hh hkey hcache => ?_,
          fun now fid st req cid hfn hsz htm htc hmime hsize hh hkey hcache => ?_,
          fun codec now id nm mi buf qq h cache hidx hne herr => ?_⟩
  · have hcond : ¬((!truthyStr req.filename || req.size.isNone || !truthyStr req.mime
        || req.totalChunks.isNone) = true) := by
      rw [hfn, hsz, htm, htc]
      simp
    have hmime2 : ¬(req.mime.getD "" ∉ ALLOWED_MIME) := fun hc => hc hmime
    unfold initUpload
    rw [if_neg hcond, if_neg hmime2, if_neg hsize, if_pos hh]
    simp only [hkey, hcache]
  · have hcond : ¬((!truthyStr req.filename || req.size.isNone || !truthyStr req.mime
        || req.totalChunks.isNone) = true) := by
      rw [hfn, hsz, htm, htc]
      simp
    have hmime2 : ¬(req.mime.getD "" ∉ ALLOWED_MIME) := fun hc => hc hmime
    have hred : initUpload now fid st req
        = initContinue now fid
            { st with hashIndex := (JsMap.del st.hashIndex
                (req.hash.getD "" ++ ":" ++ toString (initQuality req.quality))) } req
            (initQuality req.quality) := by
      unfold initUpload
      rw [if_neg hcond, if_neg hmime2, if_neg hsize, if_pos hh]
      simp only [hkey, hcache]
    rw [hred]
    exact ⟨initContinue_hashIndex now fid _ req _,
           fun uid item => initContinue_not_instant now fid _ req _ uid item⟩
  · have hne2 : ¬(h = "") := hne
    revert herr
    by_cases hmime : mi ∈ ALLOWED_MIME
    · have hmime2 : ¬(mi ∉ ALLOWED_MIME) := fun hc => hc hmime
      simp only [compressBuffer, if_neg hmime2]
      split
      · intro herr
        simp at herr
      · split
        · intro herr
          simp at herr
        · split
          · intro herr
            simp at herr
          · split
            · intro herr
              simp at herr
            · split
              · split
                · intro herr
                  simp at herr
                · intro _
                  exact ⟨JsMap.get_set_self _ _ _, _, JsMap.get_set_self _ _ _, rfl⟩
              · split
                · intro herr
                  simp at herr
                · intro _
                  exact ⟨JsMap.get_set_self _ _ _, _, JsMap.get_set_self _ _ _, rfl⟩
    · simp only [compressBuffer, if_pos hmime]
      intro herr
      simp at herr

/-- Witness for C6 (amended): a populated dedup index and resident cache
entry produce an instant result for the second `init`. -/
theorem C6_dedup_instant_and_stale_cleanup_witness :
    initUpload 0 "u9" c6WitnessState c6InitReq
      = (.instant "u9"
          { id := "cid", originalName := "big.png", mime := some "image/png",
            originalSize := some 2, compressedSize := some 2,
            downloadUrl := some "/api/download/cid" }, c6WitnessState) := by
  have h := C6_dedup_instant_and_stale_cleanup.1 0 "u9" c6WitnessState c6InitReq
    "cid" c6WitnessEntry rfl rfl rfl rfl (by decide) (by decide) rfl rfl rfl
  rw [h]
  rfl

/-! ## Claim C7 -/

/-- C7 counterexample: `init` accepts a declared chunk count of `-1`
(`Number.isFinite(-1)` holds at 712).  For the resulting session every
declared chunk index in `0..totalChunks-1` is (vacuously) present and
`receivedBytes` equals the declared size `0`, yet `complete` fails with
`incomplete_upload` because `chunks.size (= 0) !== totalChunks (= -1)` —
so the "if and only if" of the claim does not hold as stated. -/
theorem C7_negative_chunkcount_counterexample :
    JsMap.get c7St.sessions "s1" = some c7BadSession ∧
    allChunksPresent c7BadSession = true ∧
    c7BadSession.receivedBytes = c7BadSession.totalSize ∧
    (completeUpload stubCodec 1 "j" c7St "s1" none true).1 = .incomplete ∧
    (completeUpload stubCodec 1 "j" c7St "s1" none true).2 = c7St := by
  decide

/-- C7 (amended): for sessions with a nonnegative declared chunk count
(the well-formedness `initUpload` establishes and `putChunk` preserves),
`complete` succeeds if and only if every declared chunk index
`0..totalChunks-1` is present and `receivedBytes` equals the declared
size; on failure the result is `incomplete_upload` (under the chunk-map
invariant the `missing_chunk` branch is unreachable) and the whole state
— the session included — is untouched; on success the session is deleted
and the job receives the chunks concatenated in ascending index order. -/
theorem C7_complete_iff_all_chunks_and_size :
    (∀ (now : Int) (fid : String) (st : ServerState) (req : InitRequest),
      (∀ p ∈ st.sessions, chunksWF p.2) →
      ∀ p ∈ (initUpload now fid st req).2.sessions, chunksWF p.2) ∧
    (∀ (now : Int) (m : JsMap String UploadSession) (uid : String) (idx : Int) (ch : List Nat),
      (∀ p ∈ m, chunksWF p.2) →
      ∀ p ∈ (putChunk now m uid idx ch).2, chunksWF p.2) ∧
    (∀ (codec : Codec) (now : Int) (jid : String) (st : ServerState) (uid : String)
       (q : Option Int) (wp : Bool) (s : UploadSession),
      JsMap.get st.sessions uid = some s → chunksWF s → 0 ≤ s.totalChunks →
      ((¬completeFailed (completeUpload codec now jid st uid q wp).1) ↔
        (allChunksPresent s = true ∧ s.receivedBytes = s.totalSize)) ∧
      (completeFailed (completeUpload codec now jid st uid q wp).1 →
        (completeUpload codec now jid st uid q wp).1 = .incomplete ∧
        (completeUpload codec now jid st uid q wp).2 = st) ∧
      ((allChunksPresent s = true ∧ s.receivedBytes = s.totalSize) →
        (completeUpload codec now jid st uid q wp).2.sessions = JsMap.del st.sessions uid ∧
        ∃ full, assembleChunks s.chunks s.totalChunks.toNat = some full ∧
          (wp = true →
            (completeUpload codec now jid st uid q wp).1
              = .asyncStarted jid (s.clientId.getD uid) (completeQuality q s.quality) ∧
            JsMap.get (completeUpload codec now jid st uid q wp).2.jobs jid
              = some { id := jid, clientId := s.clientId.getD uid,
                       originalName := s.filename, mime := s.mime, buffer := full,
                       quality := completeQuality q s.quality, created := now,
                       phase := .queued, progress := 0 }))) := by
  refine ⟨fun now fid st req h => ?_, fun now m uid idx ch h => ?_,
          fun codec now jid st uid q wp s hget hwf h0 => ?_⟩
  · rcases initUpload_sessions_cases now fid st req with heq | ⟨s, hch, hrb, heq⟩
    · rw [heq]
      exact h
    · rw [heq]
      intro p hp
      rcases JsMap.mem_of_mem_set hp with hp2 | hp2
      · rw [hp2]
        constructor
        · rw [hch]
          exact List.nodup_nil
        · rw [hch]
          intro k hk
          simp [JsMap.keys] at hk
      · exact h p hp2
  · rcases putChunk_sessions_cases now m uid idx ch with heq | ⟨s, hs, hidx, hacc | hacc⟩
    · rw [heq]
      exact h
    · rw [hacc.1]
      intro p hp
      rcases JsMap.mem_of_mem_set hp with hp2 | hp2
      · rw [hp2]
        have hswf := h (uid, s) (JsMap.mem_of_get hs)
        push_neg at hidx
        constructor
        · exact JsMap.nodup_keys_set ch hswf.1
        · intro k hk
          rcases JsMap.mem_keys_set hk with hk2 | hk2
          · exact hswf.2 k hk2
          · subst hk2
            show ((idx.toNat : Int) < s.totalChunks)
            omega
      · exact h p hp2
    · rw [hacc.1]
      intro p hp
      exact h p (JsMap.mem_del_set hp)
  · have hcount := count_iff_all_present hwf h0
    by_cases hchk : (s.chunks.length : Int) = s.totalChunks ∧ s.receivedBytes = s.totalSize
    · have hall : allChunksPresent s = true := hcount.mp hchk.1
      have hsome : (assembleChunks s.chunks s.totalChunks.toNat).isSome := by
        rw [assembleChunks_isSome_iff]
        intro i hi
        rw [allChunksPresent, List.all_eq_true] at hall
        exact hall i (List.mem_range.mpr hi)
      cases hasm : assembleChunks s.chunks s.totalChunks.toNat with
      | none =>
        rw [hasm] at hsome
        simp at hsome
      | some full =>
        refine ⟨⟨fun _ => ⟨hall, hchk.2⟩, fun _ => ?_⟩, fun hf => ?_,
                fun _ => ⟨?_, full, rfl, fun hwp => ?_⟩⟩
        · simp only [completeUpload, hget, if_neg (not_not_intro hchk), hasm]
          cases wp <;> simp [completeFailed]
        · exfalso
          revert hf
          simp only [completeUpload, hget, if_neg (not_not_intro hchk), hasm]
          cases wp <;> simp [completeFailed]
        · simp only [completeUpload, hget, if_neg (not_not_intro hchk), hasm]
          cases wp <;> rfl
        · subst hwp
          simp only [completeUpload, hget, if_neg (not_not_intro hchk), hasm]
          exact ⟨rfl, JsMap.get_set_self _ _ _⟩
    · have hres : completeUpload codec now jid st uid q wp = (.incomplete, st) := by
        simp only [completeUpload, hget, if_pos hchk]
      rw [hres]
      refine ⟨⟨fun h2 => absurd trivial h2, fun hx => ?_⟩, fun _ => ⟨rfl, rfl⟩, fun hx => ?_⟩
      · exact absurd ⟨hcount.mpr hx.1, hx.2⟩ hchk
      · exact absurd ⟨hcount.mpr hx.1, hx.2⟩ hchk

/-- Witness for C7 (amended): a fully received two-chunk session completes
(the iff holds with both sides true). -/
theorem C7_complete_iff_all_chunks_and_size_witness :
    allChunksPresent c7Session = true ∧
    c7Session.receivedBytes = c7Session.totalSize ∧
    ¬completeFailed (completeUpload stubCodec 0 "j" c7WitnessState "w" none true).1 ∧
    (completeUpload stubCodec 0 "j" c7WitnessState "w" none true).2.sessions = [] := by
  have h := (C7_complete_iff_all_chunks_and_size.2.2 stubCodec 0 "j" c7WitnessState "w"
    none true c7Session rfl ⟨by decide, by decide⟩ (by decide))
  refine ⟨by decide, by decide, h.1.mpr ⟨by decide, by decide⟩, ?_⟩
  rw [(h.2.2 ⟨by decide, by decide⟩).1]
  decide

/-! ## Claim C8 -/

/-- C8 counterexample: `init` accepts a declared size of `-1`
(`Number.isFinite(-1)` holds at 712), creating a session with
`receivedBytes = 0 > totalSize = -1`; after a `putChunk` on a different
session completes successfully, that session is still present and violates
`receivedBytes ≤ declared total size`. -/
theorem C8_negative_size_counterexample :
    c8After.1 = ChunkResult.ok 3 3 true false ∧
    JsMap.get c8After.2 "bad" = some c8BadSession ∧
    c8BadSession.receivedBytes = 0 ∧
    c8BadSession.totalSize = -1 ∧
    ¬(c8BadSession.receivedBytes ≤ c8BadSession.totalSize) := by
  decide

/-- C8 (amended): every session with a nonnegative declared total size
satisfies `receivedBytes ≤ totalSize`: `initUpload` and `putChunk`
preserve this store-wide invariant, and a chunk whose acceptance would
push `receivedBytes` past the declared size aborts the session — the
session is stored-then-deleted and `upload_size_mismatch` is returned
(795-798). -/
theorem C8_received_bytes_invariant :
    (∀ (now : Int) (fid : String) (st : ServerState) (req : InitRequest),
      sessionsBytesOk st.sessions → sessionsBytesOk (initUpload now fid st req).2.sessions) ∧
    (∀ (now : Int) (m : JsMap String UploadSession) (uid : String) (idx : Int) (ch : List Nat),
      sessionsBytesOk m → sessionsBytesOk (putChunk now m uid idx ch).2) ∧
    (∀ (now : Int) (m : JsMap String UploadSession) (uid : String) (idx : Int)
       (ch : List Nat) (s : UploadSession),
      JsMap.get m uid = some s → ¬(idx < 0 ∨ idx ≥ s.totalChunks) →
      JsMap.get s.chunks idx.toNat = none →
      s.receivedBytes + (ch.length : Int) > s.totalSize →
      (putChunk now m uid idx ch).1 = .sizeMismatch ∧
      (putChunk now m uid idx ch).2
        = JsMap.del (JsMap.set m uid (chunkAccept now s idx.toNat ch)) uid ∧
      ((JsMap.keys m).Nodup → JsMap.get (putChunk now m uid idx ch).2 uid = none)) := by
  refine ⟨fun now fid st req h => ?_, fun now m uid idx ch h => ?_,
          fun now m uid idx ch s hs hidx hfresh hover => ?_⟩
  · rcases initUpload_sessions_cases now fid st req with heq | ⟨s, hch, hrb, heq⟩
    · rw [heq]
      exact h
    · rw [heq]
      intro p hp hts
      rcases JsMap.mem_of_mem_set hp with hp2 | hp2
      · rw [hp2, hrb]
        rw [hp2] at hts
        exact hts
      · exact h p hp2 hts
  · rcases putChunk_sessions_cases now m uid idx ch with heq | ⟨s, hs, hidx, hacc | hacc⟩
    · rw [heq]
      exact h
    · rw [hacc.1]
      intro p hp hts
      rcases JsMap.mem_of_mem_set hp with hp2 | hp2
      · have hts2 : (chunkAccept now s idx.toNat ch).totalSize = s.totalSize := rfl
        have hguard := hacc.2
        rw [hp2]
        omega
      · exact h p hp2 hts
    · rw [hacc.1]
      intro p hp hts
      exact h p (JsMap.mem_del_set hp) hts
  · have hover2 : (chunkAccept now s idx.toNat ch).receivedBytes > s.totalSize := by
      show s.receivedBytes + (ch.length : Int) > s.totalSize
      exact hover
    have hdup : ¬((JsMap.get s.chunks idx.toNat).isSome = true) := by
      rw [hfresh]
      simp
    simp only [putChunk, hs]
    rw [if_neg hidx, if_neg hdup, if_pos hover2]
    exact ⟨rfl, rfl, fun hnd => get_del_set_self_of_nodup uid _ hnd⟩

/-- Witness for C8 (amended): a 7-byte chunk pushes a 2-chunk session with
4 of 10 declared bytes past its declared size; the session is aborted. -/
theorem C8_received_bytes_invariant_witness :
    sessionsBytesOk [("x", c4Session)] ∧
    sessionsBytesOk (putChunk 9 [("x", c4Session)] "x" 1 [1, 1, 1, 1, 1, 1, 1]).2 ∧
    (putChunk 9 [("x", c4Session)] "x" 1 [1, 1, 1, 1, 1, 1, 1]).1 = .sizeMismatch ∧
    JsMap.get (putChunk 9 [("x", c4Session)] "x" 1 [1, 1, 1, 1, 1, 1, 1]).2 "x" = none := by
  have h1 : sessionsBytesOk [("x", c4Session)] := by
    intro p hp hts
    rcases List.mem_singleton.mp hp with rfl
    decide
  have h3 := C8_received_bytes_invariant.2.2 9 [("x", c4Session)] "x" 1
    [1, 1, 1, 1, 1, 1, 1] c4Session rfl (by decide) (by decide) (by decide)
  exact ⟨h1, C8_received_bytes_invariant.2.1 9 [("x", c4Session)] "x" 1 _ h1,
         h3.1, h3.2.2 (by decide)⟩

/-! ## Claim C9 -/

/-- C9 counterexample: a terminal (`done`) job created at time 0 and
batch-polled well after the 2-minute grace period is still reported with
its full stale record (`missing` absent, phase `done`) — the batch
endpoint never consults job age, contradicting the claim that such a job
is reported as `{ missing: true }`. -/
theorem C9_stale_done_counterexample :
    (200000 : Int) - c9Job.created > JOB_GRACE_MS ∧
    c9Job.phase = .done ∧
    pollJobs [("j", c9Job)] ["j"] = [foundRecord "j" c9Job] ∧
    (foundRecord "j" c9Job).missing = false ∧
    (foundRecord "j" c9Job).phase = some .done := by
  refine ⟨by decide, rfl, rfl, rfl, rfl⟩

/-- C9 (amended): the batch poll reports `missing: true` exactly for ids
absent from the job store and otherwise returns the stored record whatever
its age; the single-job poll responds with the (possibly stale terminal)
record and only then garbage-collects the job, when it is terminal and
more than 2 minutes have passed since its creation. -/
theorem C9_poll_semantics :
    (∀ (jobs : JsMap String ProgressJob) (id : String),
      ((pollOne jobs id).missing = true ↔ JsMap.get jobs id = none)) ∧
    (∀ (jobs : JsMap String ProgressJob) (id : String) (j : ProgressJob),
      JsMap.get jobs id = some j →
      pollOne jobs id = foundRecord id j ∧ (foundRecord id j).missing = false ∧
        (foundRecord id j).phase = some j.phase) ∧
    (∀ (now : Int) (jobs : JsMap String ProgressJob) (id : String) (j : ProgressJob),
      JsMap.get jobs id = some j →
      (pollJob now jobs id).1 = some (foundRecord id j) ∧
      (pollJob now jobs id).2 =
        (if (j.phase = .done ∨ j.phase = .jobError) ∧ now - j.created > JOB_GRACE_MS
         then JsMap.del jobs j.id else jobs)) := by
  refine ⟨fun jobs id => ?_, fun jobs id j h => ?_, fun now jobs id j h => ?_⟩
  · cases hg : JsMap.get jobs id with
    | none => simp [pollOne, hg]
    | some j => simp [pollOne, hg, foundRecord]
  · exact ⟨by simp [pollOne, h], rfl, rfl⟩
  · constructor
    · simp [pollJob, h]
    · simp [pollJob, h]

/-- Witness for C9 (amended): the stale `done` job is returned in full by
the single poll and deleted from the store afterwards. -/
theorem C9_poll_semantics_witness :
    JsMap.get [("j", c9Job)] "j" = some c9Job ∧
    (pollJob 200000 [("j", c9Job)] "j").1 = some (foundRecord "j" c9Job) ∧
    (pollJob 200000 [("j", c9Job)] "j").2 = [] := by
  have h := C9_poll_semantics.2.2 200000 [("j", c9Job)] "j" c9Job rfl
  refine ⟨rfl, h.1, ?_⟩
  rw [h.2]
  rw [if_pos ⟨Or.inl rfl, by decide⟩]
  rfl

/-! ## Claim C10 -/

/-- C10 counterexample: in `/api/compress` (568-569) a quality of `0` is
finite, so it is clamped to `1` — it does not default to `70` as the claim
states for all three endpoints. -/
theorem C10_zero_quality_counterexample :
    compressQuality (some 0) = 1 ∧ compressQuality (some 0) ≠ 70 := by
  decide

/-- C10 (amended): the effective quality is always clamped into `[1, 100]`
on all three endpoints.  A missing/non-numeric quality defaults to 70 in
`/api/compress` and in `upload/init`, where a quality of exactly 0 also
defaults to 70; in `/api/compress` a 0 is finite and is clamped to 1, not
defaulted.  In `upload/complete` (820) a missing, non-numeric, or zero
request quality falls back to the session's stored quality first
(`Number(quality) || session.quality || 70`), and reaches the 70 default
only when that fallback is itself absent or zero — so `init` at quality 85
followed by `complete` with quality 0 yields 85, not 70. -/
theorem C10_quality_clamped :
    (∀ raw, 1 ≤ compressQuality raw ∧ compressQuality raw ≤ 100) ∧
    (∀ raw, 1 ≤ initQuality raw ∧ initQuality raw ≤ 100) ∧
    (∀ raw sq, 1 ≤ completeQuality raw sq ∧ completeQuality raw sq ≤ 100) ∧
    compressQuality none = 70 ∧
    initQuality none = 70 ∧ initQuality (some 0) = 70 ∧
    (∀ (v : Int) (sq : Option Int), v ≠ 0 → completeQuality (some v) sq = clampQuality v) ∧
    (∀ w : Int, w ≠ 0 → completeQuality none (some w) = clampQuality w ∧
       completeQuality (some 0) (some w) = clampQuality w) ∧
    completeQuality none none = 70 ∧ completeQuality (some 0) none = 70 ∧
    completeQuality (some 0) (some 85) = 85 ∧
    compressQuality (some 0) = 1 := by
  have hcl : ∀ x : Int, 1 ≤ clampQuality x ∧ clampQuality x ≤ 100 := by
    intro x
    unfold clampQuality
    constructor
    · exact le_min (by norm_num) (le_max_left 1 x)
    · exact min_le_left 100 _
  refine ⟨fun raw => ?_, fun raw => ?_, fun raw sq => ?_, by decide, by decide, by decide,
          fun v sq hv => ?_, fun w hw => ⟨?_, ?_⟩, by decide, by decide, by decide, by decide⟩
  · cases raw with
    | none => exact ⟨by decide, by decide⟩
    | some v => exact hcl v
  · exact hcl _
  · exact hcl _
  · simp [completeQuality, hv]
  · simp [completeQuality, hw]
  · simp [completeQuality, hw]

/-- Witness for C10 (amended): a session stored at quality 85 wins the
fallback chain over the 70 default, whatever the request quality. -/
theorem C10_quality_clamped_witness :
    (85 : Int) ≠ 0 ∧ (40 : Int) ≠ 0 ∧
    completeQuality (some 40) (some 85) = clampQuality 40 ∧
    completeQuality none (some 85) = clampQuality 85 ∧
    completeQuality (some 0) (some 85) = clampQuality 85 := by
  obtain ⟨-, -, -, -, -, -, h7, h8, -⟩ := C10_quality_clamped
  exact ⟨by decide, by decide, h7 40 (some 85) (by decide),
         (h8 85 (by decide)).1, (h8 85 (by decide)).2⟩

end ImageOptimize
